import Mathlib

/-!
Verification development for the track-resolution and structure-extension
subsystem of src/src/structures/Utils.ts (erela.js fork).

The TypeScript source is shallowly embedded: JavaScript strings are `List Char`
(wrapped into `String` only at API boundaries), JS numbers on the duration
paths are `Int`/`Nat` (every value involved is an integer; NaN and the dynamic
type guards are unrepresentable in the typed model and noted where they occur),
JS objects carrying the hidden capability symbols are a record of string-keyed
fields plus the two symbol-keyed descriptors, and fallible operations return
`Except String`.
-/

/-- Model of a character-level digit test (the regex classes backslash-d and
backslash-D of the source): code points 48-57. -/
def isDigitCh (c : Char) : Bool := 48 ≤ c.toNat && c.toNat ≤ 57

/-- The decimal digit characters, used to model JS number-to-string coercion. -/
def digitChar : Nat → Char
  | 0 => '0' | 1 => '1' | 2 => '2' | 3 => '3' | 4 => '4'
  | 5 => '5' | 6 => '6' | 7 => '7' | 8 => '8' | _ => '9'

/-- Fuel-driven decimal rendering of a natural number, least significant digit
last; models the template-literal coercion of a nonnegative integer in the
source. The fuel argument only makes the recursion structural: `natToChars`
always supplies enough. -/
def natToCharsAux : Nat → Nat → List Char
  | 0, _ => []
  | fuel + 1, n => if n < 10 then [digitChar n] else natToCharsAux fuel (n / 10) ++ [digitChar (n % 10)]

/-- Decimal representation of a natural number as a character list. -/
def natToChars (n : Nat) : List Char := natToCharsAux (n + 1) n

/-- Value of a digit run, as JS parseInt reads a leading decimal integer. -/
def natFromDigits (cs : List Char) : Nat :=
  cs.foldl (fun a c => 10 * a + (c.toNat - 48)) 0

/-- Zero padding of the minimal time format: the source's template producing
a leading 0 for a value below 10. -/
def pad2 (v : Nat) : List Char := if v < 10 then '0' :: natToChars v else natToChars v

/-- Array.prototype.join with a separator, on character lists. -/
def joinSep (sep : List Char) : List (List Char) → List Char
  | [] => []
  | [x] => x
  | x :: xs => x ++ sep ++ joinSep sep xs

/-- ASCII lower-casing of one character, the model of String.prototype
.toLowerCase on the ASCII inputs this code handles. -/
def jsToLowerChar (c : Char) : Char :=
  if 65 ≤ c.toNat && c.toNat ≤ 90 then Char.ofNat (c.toNat + 32) else c

/-- The whitespace class of the source's split regex, restricted to the ASCII
whitespace that can occur in this pipeline's strings. -/
def isJsWs (c : Char) : Bool :=
  c == ' ' || c == '\t' || c == '\n' || c == '\r' || c == '\x0b' || c == '\x0c'

/-- String.prototype.endsWith on character lists. -/
def jsEndsWith (l suf : List Char) : Bool :=
  decide (suf.length ≤ l.length ∧ l.drop (l.length - suf.length) = suf)

/-- The source's final-comma replacement in formatTime: when the joined string
contains a comma, the text before the LAST comma and the text after it are
re-joined with " and " (the space that followed the comma is kept, exactly as
the slices of the source keep it). -/
def jsCommaAnd (cs : List Char) : List Char :=
  if cs.contains ',' then
    let r := cs.reverse
    let suffRev := r.takeWhile (fun c => !(c == ','))
    match r.dropWhile (fun c => !(c == ',')) with
    | ',' :: preRev => preRev.reverse ++ (" and ").data ++ suffRev.reverse
    | _ => cs
  else cs

/-! ## Track model and capability tags

The two process-unique symbols TRACK_SYMBOL and UNRESOLVED_TRACK_SYMBOL are
modelled as two dedicated slots of the object record; the source only ever
defines them through Object.defineProperty with value true, configurable true
and (by descriptor default) enumerable false, so a slot holds the boolean
value together with its enumerable flag, or nothing when the property is
absent. -/

/-- Descriptor of one symbol-keyed property: its boolean value and whether it
is enumerable (Object.defineProperty without an enumerable field makes it
non-enumerable). -/
structure SymProp where
  value : Bool
  enumerable : Bool
deriving DecidableEq, Repr

/-- The JS values stored in the string-keyed fields of tracks. -/
inductive JV where
  | str (s : String)
  | num (n : Int)
  | bool (b : Bool)
  | null
  | undef
  | func
  | req
deriving DecidableEq, Repr

/-- A JS object as this module manipulates one: string-keyed enumerable data
properties in insertion order, plus the two symbol-keyed capability slots. -/
structure TObj where
  fields : List (String × JV)
  trackSym : Option SymProp
  unresolvedSym : Option SymProp
deriving DecidableEq, Repr

/-- Property read of a capability slot: the value when present, else
undefined (none). -/
def tagVal : Option SymProp → Option Bool
  | some p => some p.value
  | none => none

/-- The JS expression a-or-b for the two tag reads: a when truthy, else b.
The only values the slots hold are booleans or undefined. -/
def jsOrBool : Option Bool → Option Bool → Option Bool
  | some true, _ => some true
  | some false, b => b
  | none, b => b

/-- Arguments of validate: a single object or an array of objects (the
undefined case is the surrounding Option). -/
inductive JsArg where
  | obj (o : TObj)
  | arr (l : List TObj)
deriving DecidableEq, Repr

/-- The two tag reads of a validate argument: an array has no symbol-keyed
properties, so both reads give undefined on it. -/
def argTags : JsArg → Option Bool × Option Bool
  | .obj o => (tagVal o.trackSym, tagVal o.unresolvedSym)
  | .arr _ => (none, none)

/-- TrackUtils.validate: RangeError for undefined; a nonempty array passes
iff every element's tag-or is truthy; anything else (including an empty
array) passes iff its tag-or is exactly true. -/
def TrackUtils.validate : Option JsArg → Except String Bool
  | none => .error "Provided argument must be present."
  | some a =>
    match a with
    | .arr l =>
      if l.length ≠ 0 then
        .ok (l.all fun o => jsOrBool (tagVal o.trackSym) (tagVal o.unresolvedSym) == some true)
      else .ok ((jsOrBool (argTags a).1 (argTags a).2) == some true)
    | .obj _ => .ok ((jsOrBool (argTags a).1 (argTags a).2) == some true)

/-- TrackUtils.isUnresolvedTrack: RangeError for undefined, else tests the
unresolved slot's value for strict equality with true. -/
def TrackUtils.isUnresolvedTrack : Option TObj → Except String Bool
  | none => .error "Provided argument must be present."
  | some o => .ok (tagVal o.unresolvedSym == some true)

/-- TrackUtils.isTrack: RangeError for undefined, else tests the resolved
slot's value for strict equality with true. -/
def TrackUtils.isTrack : Option TObj → Except String Bool
  | none => .error "Provided argument must be present."
  | some o => .ok (tagVal o.trackSym == some true)

/-! ## setTrackPartial and the track builder -/

/-- An element of the argument given to setTrackPartial: a string or a value
of any other dynamic type. -/
inductive StrOrNot where
  | str (s : String)
  | notStr
deriving DecidableEq, Repr

/-- The argument given to setTrackPartial: an array of dynamic values, or a
non-array value. -/
inductive PartialArg where
  | arr (l : List StrOrNot)
  | notArr
deriving DecidableEq, Repr

/-- TrackUtils.setTrackPartial: rejects a non-array or an array with a
non-string element, prepends "track" when absent (Array.prototype.unshift),
and returns the new value of the trackPartial module state. -/
def TrackUtils.setTrackPartial : PartialArg → Except String (List String)
  | .notArr => .error "Provided partial is not an array or not a string array."
  | .arr l =>
    if l.all (fun e => match e with | .str _ => true | .notStr => false) then
      let strs := l.filterMap (fun e => match e with | .str s => some s | .notStr => none)
      .ok (if strs.contains "track" then strs else "track" :: strs)
    else .error "Provided partial is not an array or not a string array."

/-- Raw per-track payload from the search backend (interface TrackDataInfo). -/
structure TrackDataInfo where
  title : String
  identifier : String
  author : String
  length : Int
  isSeekable : Bool
  isStream : Bool
  uri : String
deriving DecidableEq, Repr

/-- Raw track data from the search backend (interface TrackData). -/
structure TrackData where
  track : String
  info : TrackDataInfo
deriving DecidableEq, Repr

/-- Substring test, the model of String.prototype.includes. -/
def containsSub (hay needle : List Char) : Bool :=
  match hay with
  | [] => needle.isEmpty
  | _ :: t => needle.isPrefixOf hay || containsSub t needle

/-- The string-keyed fields of the object literal of TrackUtils.build, in the
literal's insertion order. -/
def builtFields (d : TrackData) (requester : JV) : List (String × JV) :=
  [("track", .str d.track),
   ("title", .str d.info.title),
   ("identifier", .str d.info.identifier),
   ("author", .str d.info.author),
   ("duration", .num d.info.length),
   ("isSeekable", .bool d.info.isSeekable),
   ("isStream", .bool d.info.isStream),
   ("uri", .str d.info.uri),
   ("thumbnail",
     if containsSub d.info.uri.data ("youtube").data then
       .str ("https://img.youtube.com/vi/" ++ d.info.identifier ++ "/default.jpg")
     else .null),
   ("displayThumbnail", .func),
   ("requester", requester)]

/-- The object TrackUtils.build returns for present, well-shaped data: the
literal's fields, every key not in the trackPartial whitelist deleted when the
whitelist is set, then the resolved tag attached non-enumerably. -/
def mkTrack (trackPartialState : Option (List String)) (d : TrackData) (requester : JV) : TObj :=
  let fs := builtFields d requester
  let fs := match trackPartialState with
    | none => fs
    | some p => fs.filter (fun kv => p.contains kv.1)
  ⟨fs, some ⟨true, false⟩, none⟩

/-- TrackUtils.build: RangeError when data is undefined, else the constructed
track. The source's try/catch re-wraps field-access failures of malformed
data, which the typed TrackData cannot exhibit. -/
def TrackUtils.build (trackPartialState : Option (List String)) (data : Option TrackData) (requester : JV) : Except String TObj :=
  match data with
  | none => .error "Argument \"data\" must be present."
  | some d => .ok (mkTrack trackPartialState d requester)

/-! ## buildUnresolved and the in-place resolve step -/

/-- The argument of TrackUtils.buildUnresolved: a bare string query, or an
UnresolvedQuery descriptor with required title and optional author and
duration. -/
inductive UQuery where
  | str (s : String)
  | query (title : String) (author : Option String) (duration : Option Int)
deriving DecidableEq, Repr

/-- The object TrackUtils.buildUnresolved returns for a present query: the
literal { requester, resolve } fields, then the title (string query) or the
spread of the descriptor, then the unresolved tag attached non-enumerably. -/
def buildUnresolvedObj (query : UQuery) (requester : JV) : TObj :=
  let base : List (String × JV) := [("requester", requester), ("resolve", .func)]
  let fs := match query with
    | .str s => base ++ [("title", .str s)]
    | .query t a d =>
      base ++ [("title", .str t)]
        ++ (match a with | some s => [("author", JV.str s)] | none => [])
        ++ (match d with | some n => [("duration", JV.num n)] | none => [])
  ⟨fs, none, some ⟨true, false⟩⟩

/-- TrackUtils.buildUnresolved: RangeError when the query is undefined. -/
def TrackUtils.buildUnresolved (query : Option UQuery) (requester : JV) : Except String TObj :=
  match query with
  | none => .error "Argument \"query\" must be present."
  | some q => .ok (buildUnresolvedObj q requester)

/-- The deletion pass of resolve: Object.getOwnPropertyNames lists only the
string-keyed own properties, so every data field is deleted while both
symbol-keyed slots survive. -/
def clearStringProps (o : TObj) : TObj := { o with fields := [] }

/-- Object.assign semantics for one string-keyed property of the source:
overwrite an existing key, else append. -/
def setField (l : List (String × JV)) (kv : String × JV) : List (String × JV) :=
  if l.any (fun p => p.1 == kv.1) then
    l.map (fun p => if p.1 == kv.1 then kv else p)
  else l ++ [kv]

/-- Object.assign on one symbol slot: a symbol-keyed property is copied only
when the source owns it and it is enumerable. -/
def assignSym (tgt src : Option SymProp) : Option SymProp :=
  match src with
  | some p => if p.enumerable then some p else tgt
  | none => tgt

/-- Object.assign(target, source): copies the own enumerable string-keyed
properties (all data fields here are enumerable) and the own enumerable
symbol-keyed properties. -/
def objAssign (tgt src : TObj) : TObj :=
  { fields := src.fields.foldl setField tgt.fields,
    trackSym := assignSym tgt.trackSym src.trackSym,
    unresolvedSym := assignSym tgt.unresolvedSym src.unresolvedSym }

/-- One run of the resolve() capability of an unresolved track, given the
outcome of the awaited getClosestTrack call: when the lookup throws, nothing
after the await runs and the object is unchanged; when it returns a track,
the object's string-keyed fields are deleted and the track is assigned onto
it. Returns the object's final state and the propagated error, if any. -/
def resolveStep (o : TObj) (lookup : Except String TObj) : TObj × Option String :=
  match lookup with
  | .error e => (o, some e)
  | .ok resolved => (objAssign (clearStringProps o) resolved, none)

/-! ## getClosestTrack's selection over the candidate list

The search call itself is the external Search Provider; the embedded function
is the selection the source applies to the returned candidate list, with the
unresolved track's fields passed explicitly. -/

/-- The candidate fields getClosestTrack inspects. -/
structure RTrack where
  author : String
  title : String
  duration : Int
deriving DecidableEq, Repr

/-- JS truthiness of an optional string field (absent and "" are falsy). -/
def truthyStr : Option String → Bool
  | some s => !(s == "")
  | none => false

/-- JS truthiness of an optional number field (absent and 0 are falsy). -/
def truthyInt : Option Int → Bool
  | some n => !(n == 0)
  | none => false

/-- Case-insensitive exact match: the anchored RegExp of escapeRegExp-escaped
text with the i flag. -/
def ciEq (a b : String) : Bool := a.data.map jsToLowerChar == b.data.map jsToLowerChar

/-- The author-step predicate: candidate author matches the given author or
"author - Topic", or candidate title matches the unresolved title. -/
def step1Pred (author title : String) (t : RTrack) : Bool :=
  ciEq author t.author || ciEq (author ++ " - Topic") t.author || ciEq title t.title

/-- The duration-step predicate: candidate duration within 1500ms of the
given duration, both bounds inclusive. -/
def step2Pred (d : Int) (t : RTrack) : Bool :=
  decide (t.duration ≥ d - 1500) && decide (t.duration ≤ d + 1500)

/-- The selection getClosestTrack applies to the provider's candidates: an
author match is tried when the author field is truthy, then (whether or not
an author was given) a duration match when the duration field is truthy, then
the first candidate unconditionally (undefined when the list is empty). -/
def getClosestSelect (author : Option String) (title : String) (duration : Option Int) (tracks : List RTrack) : Option RTrack :=
  let fromAuthor : Option RTrack :=
    if truthyStr author then tracks.find? (step1Pred (author.getD "") title) else none
  match fromAuthor with
  | some t => some t
  | none =>
    let fromDuration : Option RTrack :=
      if truthyInt duration then tracks.find? (step2Pred (duration.getD 0)) else none
    match fromDuration with
    | some t => some t
    | none => tracks.head?

/-! ## The Structure registry -/

/-- The registry's initial binding: the three built-in classes under their
fixed role names, nothing else (the value type V stands for the class values,
which are always truthy). -/
def initStructures {V : Type} (player queue node : V) : String → Option V :=
  fun s => if s = "Player" then some player else if s = "Queue" then some queue else if s = "Node" then some node else none

/-- Structure.extend: TypeError when the role has no binding, else applies
the extender to the current binding, stores the result and returns it
together with the updated registry. -/
def Structure.extend {V : Type} (st : String → Option V) (name : String) (extender : V → V) : Except String ((String → Option V) × V) :=
  match st name with
  | none => .error ("\"" ++ name ++ " is not a valid structure")
  | some cur =>
    let extended := extender cur
    .ok (fun k => if k = name then some extended else st k, extended)

/-- Structure.get: TypeError when the role has no binding, else the binding. -/
def Structure.get {V : Type} (st : String → Option V) (name : String) : Except String V :=
  match st name with
  | none => .error "\"structure\" must be provided."
  | some v => .ok v

/-! ## Duration codec: formatTime -/

/-- The unit counters of formatTime, in the insertion order of the source's
times object (Object.entries iterates them in this order). -/
structure Times where
  years : Nat
  months : Nat
  weeks : Nat
  days : Nat
  hours : Nat
  minutes : Nat
  seconds : Nat
deriving DecidableEq, Repr

/-- The greedy decomposition loop of formatTime: while the remainder is
positive, subtract the largest unit that fits (a whole week adds 7 to the
weeks counter), and round a sub-minute remainder to whole seconds (JS
Math.round of a nonnegative value is floor of value + 1/2). The fuel only
makes the recursion structural; every branch lowers the remainder's toNat, so
the initial fuel of decompose never runs out. -/
def decomposeGo : Nat → Int → Times → Times
  | 0, _, t => t
  | fuel + 1, ms, t =>
    if ms > 0 then
      if ms - 31557600000 ≥ 0 then decomposeGo fuel (ms - 31557600000) { t with years := t.years + 1 }
      else if ms - 2628000000 ≥ 0 then decomposeGo fuel (ms - 2628000000) { t with months := t.months + 1 }
      else if ms - 604800000 ≥ 0 then decomposeGo fuel (ms - 604800000) { t with weeks := t.weeks + 7 }
      else if ms - 86400000 ≥ 0 then decomposeGo fuel (ms - 86400000) { t with days := t.days + 1 }
      else if ms - 3600000 ≥ 0 then decomposeGo fuel (ms - 3600000) { t with hours := t.hours + 1 }
      else if ms - 60000 ≥ 0 then decomposeGo fuel (ms - 60000) { t with minutes := t.minutes + 1 }
      else decomposeGo fuel 0 { t with seconds := (ms.toNat + 500) / 1000 }
    else t

/-- The decomposition of a duration into the times counters. -/
def decompose (ms : Int) : Times := decomposeGo (ms.toNat + 1) ms ⟨0, 0, 0, 0, 0, 0, 0⟩

/-- Object.entries(times), with the keys as character lists. -/
def unitEntries (t : Times) : List (List Char × Nat) :=
  [(("years").data, t.years), (("months").data, t.months), (("weeks").data, t.weeks),
   (("days").data, t.days), (("hours").data, t.hours), (("minutes").data, t.minutes),
   (("seconds").data, t.seconds)]

/-- The minimal-format accumulation: leading zero entries are skipped until a
value has been pushed, then every entry is pushed zero-padded. -/
def renderMinimal : List (List Char × Nat) → Bool → List (List Char)
  | [], _ => []
  | (_, v) :: rest, first =>
    if v = 0 ∧ first = false then renderMinimal rest first
    else pad2 v :: renderMinimal rest true

/-- The non-minimal accumulation: entries with a positive value are rendered
as value, space, unit key, the key singularized by dropping its final
character when the value is 1. -/
def renderFull : List (List Char × Nat) → List (List Char)
  | [] => []
  | (k, v) :: rest =>
    if v > 0 then (natToChars v ++ ' ' :: (if v > 1 then k else k.dropLast)) :: renderFull rest
    else renderFull rest

/-- Utils.formatTime on character lists: the zero shortcut, the greedy
decomposition, the chosen accumulation, the minimal-mode padding to two
components, the join, and the final-comma replacement. The source's two
RangeError guards reject a non-number milliseconds (such as NaN) and a
non-boolean minimal, neither of which the Int/Bool model can represent. -/
def formatTimeChars (milliseconds : Int) (minimal : Bool) : List Char :=
  if milliseconds = 0 then (if minimal then ("00:00").data else ("N/A").data)
  else
    let times := decompose milliseconds
    let parts0 := if minimal then renderMinimal (unitEntries times) false else renderFull (unitEntries times)
    let parts := if minimal then (if parts0.length = 1 then ("00").data :: parts0 else parts0) else parts0
    jsCommaAnd (joinSep (if minimal then (":").data else (", ").data) parts)

/-- Utils.formatTime. -/
def Utils.formatTime (milliseconds : Int) (minimal : Bool) : String :=
  String.mk (formatTimeChars milliseconds minimal)

/-! ## Duration codec: parseTime -/

/-- The unit-word table indexed by colon-group position, lowest unit first. -/
def template : List String :=
  ["second", "minute", "hour", "day", "week", "month", "year"]

/-- template[i] under JS indexing: out-of-range access concatenates as the
string "undefined". -/
def templateGet (i : Nat) : List Char := ((template.get? i).getD "undefined").data

/-- String.prototype.split on a single separator character, preserving empty
groups. -/
def splitOnChar (sep : Char) : List Char → List (List Char)
  | [] => [[]]
  | c :: t =>
    if c == sep then [] :: splitOnChar sep t
    else
      match splitOnChar sep t with
      | g :: gs => (c :: g) :: gs
      | [] => [[c]]

/-- The colon preprocessing of parseTime: split on ":", reverse, suffix each
group with its unit word by position, and re-join. -/
def colonStep (cs : List Char) : List Char :=
  (((splitOnChar ':' cs).reverse.enum).map (fun p => p.2 ++ templateGet p.1)).flatten

/-- The token scan of parseTime's regex (digits, then dots, then digits, then
at least one non-digit, global flag): a match can only start at a digit; at
one, the maximal digit run, dot run and second digit run are taken, and the
match succeeds on a following non-digit run, the scan resuming after it; at
the end of input the engine backtracks the dot run, producing a final token
of the digits and dots only. The fuel only makes the recursion structural:
every step consumes at least one character. -/
def jsTokensAux : Nat → List Char → List (List Char)
  | 0, _ => []
  | _ + 1, [] => []
  | fuel + 1, c :: rest =>
    if !(isDigitCh c) then jsTokensAux fuel rest
    else
      let s := c :: rest
      let d1 := s.takeWhile isDigitCh
      let r1 := s.dropWhile isDigitCh
      let dots := r1.takeWhile (fun x => x == '.')
      let r2 := r1.dropWhile (fun x => x == '.')
      let d2 := r2.takeWhile isDigitCh
      let r3 := r2.dropWhile isDigitCh
      let nd := r3.takeWhile (fun x => !(isDigitCh x))
      let r4 := r3.dropWhile (fun x => !(isDigitCh x))
      if !nd.isEmpty then (d1 ++ dots ++ d2 ++ nd) :: jsTokensAux fuel r4
      else if !dots.isEmpty then [d1 ++ dots]
      else []

/-- The token list of parseTime's regex loop. -/
def jsTokens (cs : List Char) : List (List Char) := jsTokensAux (cs.length + 1) cs

/-- The millisecond contribution of one token: the token lower-cased, its
numeric value read by parseInt (the leading digit run; a decimal part is cut
off at the dot), the length of its first non-digit run (the guard of the
single-letter unit forms), and the endsWith cascade of the source in its
exact order. -/
def tokenValue (tok : List Char) : Nat :=
  let locl := tok.map jsToLowerChar
  let num := natFromDigits (locl.takeWhile isDigitCh)
  let fnd := ((locl.dropWhile isDigitCh).takeWhile (fun c => !(isDigitCh c))).length
  if jsEndsWith locl ("seconds").data || jsEndsWith locl ("second").data ||
     (jsEndsWith locl ("s").data && fnd == 1) then num * 1000
  else if jsEndsWith locl ("minutes").data || jsEndsWith locl ("minute").data ||
     (jsEndsWith locl ("m").data && fnd == 1) then num * 60000
  else if jsEndsWith locl ("hours").data || jsEndsWith locl ("hour").data ||
     (jsEndsWith locl ("h").data && fnd == 1) then num * 3600000
  else if jsEndsWith locl ("days").data || jsEndsWith locl ("day").data ||
     (jsEndsWith locl ("d").data && fnd == 1) then num * 86400000
  else if jsEndsWith locl ("weeks").data || jsEndsWith locl ("week").data ||
     (jsEndsWith locl ("w").data && fnd == 1) then num * 604800000
  else if jsEndsWith locl ("months").data || jsEndsWith locl ("month").data then num * 2628000000
  else if jsEndsWith locl ("years").data || jsEndsWith locl ("year").data ||
     (jsEndsWith locl ("y").data && fnd == 1) then num * 31557600000
  else 0

/-- Utils.parseTime on character lists: colon expansion when a colon is
present, whitespace removal when a space is present, the implicit seconds
suffix for an all-digit string, then the summed token contributions; a zero
sum is returned as null. -/
def parseTimeChars (cs0 : List Char) : Option Nat :=
  let cs1 := if cs0.contains ':' then colonStep cs0 else cs0
  let cs2 := if cs1.contains ' ' then cs1.filter (fun c => !(isJsWs c)) else cs1
  let cs3 := if !cs2.isEmpty && cs2.all isDigitCh then cs2 ++ ("seconds").data else cs2
  let total := (jsTokens cs3).foldl (fun acc t => acc + tokenValue t) 0
  if total = 0 then none else some total

/-- Utils.parseTime. -/
def Utils.parseTime (s : String) : Option Nat := parseTimeChars s.data

/-! ## Helper lemmas: decimal digit strings -/

theorem isDigitCh_digitChar (d : Nat) : isDigitCh (digitChar d) = true := by
  match d with
  | 0 | 1 | 2 | 3 | 4 | 5 | 6 | 7 | 8 => decide
  | n + 9 =>
    show isDigitCh '9' = true
    decide

theorem digitChar_toNat (d : Nat) (h : d < 10) : (digitChar d).toNat = 48 + d := by
  interval_cases d <;> decide

theorem natToCharsAux_ne_nil (fuel n : Nat) (h : n < fuel) : natToCharsAux fuel n ≠ [] := by
  cases fuel with
  | zero => omega
  | succ f =>
    simp only [natToCharsAux]
    split
    · simp
    · simp

theorem mem_natToCharsAux_digit (fuel : Nat) : ∀ n, n < fuel → ∀ c ∈ natToCharsAux fuel n, isDigitCh c = true := by
  induction fuel with
  | zero => intro n h; omega
  | succ f ih =>
    intro n _ c hc
    simp only [natToCharsAux] at hc
    split at hc
    · simp at hc
      simp [hc, isDigitCh_digitChar]
    · rename_i h10
      rw [List.mem_append] at hc
      rcases hc with hc | hc
      · exact ih (n / 10) (by have := Nat.div_lt_self (by omega : 0 < n) (by omega : 1 < 10); omega) c hc
      · simp at hc
        simp [hc, isDigitCh_digitChar]

theorem natFromDigits_natToCharsAux (fuel : Nat) : ∀ n, n < fuel → natFromDigits (natToCharsAux fuel n) = n := by
  induction fuel with
  | zero => intro n h; omega
  | succ f ih =>
    intro n hn
    simp only [natToCharsAux]
    split
    · rename_i h10
      simp [natFromDigits, digitChar_toNat n h10]
    · rename_i h10
      have hlt : n / 10 < f := by
        have := Nat.div_lt_self (by omega : 0 < n) (by omega : 1 < 10)
        omega
      simp only [natFromDigits] at ih ⊢
      rw [List.foldl_append]
      simp only [List.foldl_cons, List.foldl_nil]
      rw [ih (n / 10) hlt, digitChar_toNat (n % 10) (Nat.mod_lt n (by omega))]
      omega

theorem natToChars_ne_nil (n : Nat) : natToChars n ≠ [] :=
  natToCharsAux_ne_nil (n + 1) n (by omega)

theorem mem_natToChars_digit (n : Nat) : ∀ c ∈ natToChars n, isDigitCh c = true :=
  mem_natToCharsAux_digit (n + 1) n (by omega)

theorem natFromDigits_natToChars (n : Nat) : natFromDigits (natToChars n) = n :=
  natFromDigits_natToCharsAux (n + 1) n (by omega)

theorem isDigitCh_ne (c x : Char) (h : isDigitCh c = true) (hx : isDigitCh x = false) : c ≠ x := by
  intro he
  rw [he] at h
  rw [h] at hx
  simp at hx

/-! ## Helper lemmas: scans over appended lists -/

theorem takeWhile_append_all (p : Char → Bool) (A B : List Char) (h : ∀ c ∈ A, p c = true) :
    (A ++ B).takeWhile p = A ++ B.takeWhile p := by
  induction A with
  | nil => simp
  | cons a A ih =>
    simp only [List.cons_append]
    rw [List.takeWhile_cons_of_pos (h a (by simp)), ih (fun c hc => h c (by simp [hc]))]

theorem dropWhile_append_all (p : Char → Bool) (A B : List Char) (h : ∀ c ∈ A, p c = true) :
    (A ++ B).dropWhile p = B.dropWhile p := by
  induction A with
  | nil => simp
  | cons a A ih =>
    simp only [List.cons_append]
    rw [List.dropWhile_cons_of_pos (h a (by simp)), ih (fun c hc => h c (by simp [hc]))]

theorem takeWhile_all (p : Char → Bool) (A : List Char) (h : ∀ c ∈ A, p c = true) :
    A.takeWhile p = A := by
  have := takeWhile_append_all p A [] h
  simpa using this

theorem dropWhile_all (p : Char → Bool) (A : List Char) (h : ∀ c ∈ A, p c = true) :
    A.dropWhile p = [] := by
  have := dropWhile_append_all p A [] h
  simpa using this

theorem not_contains_of_forall_ne (x : Char) (l : List Char) (h : ∀ c ∈ l, c ≠ x) :
    l.contains x = false := by
  induction l with
  | nil => rfl
  | cons a l ih =>
    rw [List.contains_cons]
    have ha : (x == a) = false := by
      have := h a (by simp)
      simp [BEq.comm]
      exact fun he => (this he.symm).elim
    rw [ha, ih (fun c hc => h c (by simp [hc]))]
    rfl

/-! ## Helper lemmas: endsWith through an appended suffix -/

theorem drop_len_add (A B : List Char) (k : Nat) : (A ++ B).drop (A.length + k) = B.drop k := by
  induction A with
  | nil => simp
  | cons a A ih => simp [Nat.succ_add, ih]

theorem jsEndsWith_append_right (A M S : List Char) (h : S.length ≤ M.length) :
    jsEndsWith (A ++ M) S = jsEndsWith M S := by
  unfold jsEndsWith
  apply decide_eq_decide.mpr
  have hlen : (A ++ M).length - S.length = A.length + (M.length - S.length) := by
    simp [List.length_append]
    omega
  rw [hlen, drop_len_add]
  constructor
  · rintro ⟨-, hd⟩
    exact ⟨h, hd⟩
  · rintro ⟨-, hd⟩
    exact ⟨by simp [List.length_append]; omega, hd⟩

theorem jsEndsWith_append_long (A M S : List Char) (hlen : M.length ≤ S.length)
    (h : jsEndsWith S M = false) : jsEndsWith (A ++ M) S = false := by
  by_contra hne
  have htrue : jsEndsWith (A ++ M) S = true := by
    cases hx : jsEndsWith (A ++ M) S
    · exact (hne hx).elim
    · rfl
  unfold jsEndsWith at htrue
  rw [decide_eq_true_iff] at htrue
  obtain ⟨hsl, hdrop⟩ := htrue
  have hM : S.drop (S.length - M.length) = M := by
    have h1 := List.drop_drop (S.length - M.length) ((A ++ M).length - S.length) (A ++ M)
    rw [hdrop] at h1
    have harith : (A ++ M).length - S.length + (S.length - M.length) = A.length := by
      simp only [List.length_append] at hsl ⊢
      omega
    rw [harith, List.drop_left] at h1
    exact h1
  have : jsEndsWith S M = true := by
    unfold jsEndsWith
    exact decide_eq_true_iff.mpr ⟨hlen, hM⟩
  rw [this] at h
  simp at h

/-! ## Helper lemmas: ASCII lower-casing -/

theorem jsToLowerChar_digit (c : Char) (h : isDigitCh c = true) : jsToLowerChar c = c := by
  unfold jsToLowerChar
  unfold isDigitCh at h
  have hc : (65 ≤ c.toNat && c.toNat ≤ 90) = false := by
    simp only [Bool.and_eq_true, decide_eq_true_eq] at h
    simp only [Bool.and_eq_false_iff, decide_eq_false_iff_not]
    omega
  rw [hc]
  simp

theorem map_toLower_digits (D : List Char) (h : ∀ c ∈ D, isDigitCh c = true) :
    D.map jsToLowerChar = D := by
  induction D with
  | nil => rfl
  | cons a D ih =>
    simp only [List.map_cons]
    rw [jsToLowerChar_digit a (h a (by simp)), ih (fun c hc => h c (by simp [hc]))]

/-! ## Helper lemmas: tag disjunction and field assignment -/

theorem jsOrBool_true_iff (a b : Option Bool) :
    (jsOrBool a b == some true) = true ↔ (a = some true ∨ b = some true) := by
  cases a with
  | none =>
    cases b with
    | none => simp [jsOrBool]
    | some b => cases b <;> simp [jsOrBool]
  | some a =>
    cases a with
    | false =>
      cases b with
      | none => simp [jsOrBool]
      | some b => cases b <;> simp [jsOrBool]
    | true => simp [jsOrBool]

theorem setField_new (l : List (String × JV)) (kv : String × JV)
    (h : ∀ p ∈ l, p.1 ≠ kv.1) : setField l kv = l ++ [kv] := by
  unfold setField
  have hany : (l.any fun p => p.1 == kv.1) = false := by
    rw [List.any_eq_false]
    intro p hp
    simpa using h p hp
  rw [hany]
  simp

theorem foldl_setField_append (src : List (String × JV)) : ∀ acc : List (String × JV),
    ((acc.map Prod.fst ++ src.map Prod.fst).Nodup) → src.foldl setField acc = acc ++ src := by
  induction src with
  | nil => intro acc _; simp
  | cons kv src ih =>
    intro acc hnd
    simp only [List.foldl_cons]
    have hnd' := hnd
    rw [List.map_cons, List.nodup_append] at hnd'
    have hne : ∀ p ∈ acc, p.1 ≠ kv.1 := by
      intro p hp he
      have hmem : kv.1 ∈ acc.map Prod.fst := he ▸ List.mem_map_of_mem Prod.fst hp
      exact hnd'.2.2 hmem (by simp)
    rw [setField_new acc kv hne]
    have htarget : ((acc ++ [kv]).map Prod.fst ++ src.map Prod.fst).Nodup := by
      simp only [List.map_append, List.map_cons, List.map_nil]
      rw [← List.append_cons]
      simpa using hnd
    rw [ih (acc ++ [kv]) htarget]
    simp

/-! ## C7: the Structure registry -/

/-- C7: for a bound role, extend applies the transform to the current
binding, stores and returns the result, a following get returns exactly that
value, and repeated extends compose; extend on a role with no binding fails
with the invalid-structure TypeError, get on a role with no binding fails
with the missing-structure TypeError, and the initial registry binds exactly
the roles Player, Queue and Node. -/
theorem c7_structure_registry :
    (∀ (V : Type) (st : String → Option V) (name : String) (f : V → V) (v : V),
      st name = some v →
      ∃ st2, Structure.extend st name f = .ok (st2, f v) ∧
        Structure.get st2 name = .ok (f v) ∧
        ∀ g : V → V, ∃ st3, Structure.extend st2 name g = .ok (st3, g (f v)) ∧
          Structure.get st3 name = .ok (g (f v)))
    ∧ (∀ (V : Type) (st : String → Option V) (name : String) (f : V → V),
      st name = none →
      Structure.extend st name f = .error ("\"" ++ name ++ " is not a valid structure"))
    ∧ (∀ (V : Type) (st : String → Option V) (name : String),
      st name = none → Structure.get st name = .error "\"structure\" must be provided.")
    ∧ (∀ (V : Type) (p q n : V) (name : String),
      name ≠ "Player" → name ≠ "Queue" → name ≠ "Node" → initStructures p q n name = none) := by
  refine ⟨?_, ?_, ?_, ?_⟩
  · intro V st name f v h
    refine ⟨fun k => if k = name then some (f v) else st k, ?_, ?_, ?_⟩
    · simp [Structure.extend, h]
    · simp [Structure.get]
    · intro g
      refine ⟨fun k => if k = name then some (g (f v)) else
        (fun k => if k = name then some (f v) else st k) k, ?_, ?_⟩
      · simp [Structure.extend]
      · simp [Structure.get]
  · intro V st name f h
    simp [Structure.extend, h]
  · intro V st name h
    simp [Structure.get, h]
  · intro V p q n name h1 h2 h3
    simp [initStructures, h1, h2, h3]

/-- Witness for C7 at concrete inputs: the registry of three numbered
classes, extended twice under Player, and the failing lookups of an unknown
role. -/
theorem c7_witness :
    (∃ st2, Structure.extend (initStructures 1 2 3) "Player" (fun v => v + 10) = .ok (st2, 11) ∧
      Structure.get st2 "Player" = .ok 11 ∧
      ∀ g : Nat → Nat, ∃ st3, Structure.extend st2 "Player" g = .ok (st3, g 11) ∧
        Structure.get st3 "Player" = .ok (g 11))
    ∧ Structure.extend (initStructures 1 2 3) "Guild" (fun v : Nat => v) =
        .error "\"Guild is not a valid structure"
    ∧ Structure.get (initStructures 1 2 3) "Guild" = .error "\"structure\" must be provided."
    ∧ initStructures 1 2 3 "Guild" = none := by
  have hsome : initStructures 1 2 3 "Player" = some 1 := by decide
  have hnone : initStructures 1 2 3 "Guild" = none :=
    c7_structure_registry.2.2.2 Nat 1 2 3 "Guild" (by decide) (by decide) (by decide)
  exact ⟨c7_structure_registry.1 Nat (initStructures 1 2 3) "Player" (fun v => v + 10) 1 hsome,
    c7_structure_registry.2.1 Nat (initStructures 1 2 3) "Guild" (fun v : Nat => v) hnone,
    c7_structure_registry.2.2.1 Nat (initStructures 1 2 3) "Guild" hnone,
    hnone⟩

/-! ## C8: validate and the tag checks -/

/-- C8: validate throws the RangeError on an undefined argument; a non-array
argument passes exactly when a capability marker is present and equal to
true; a nonempty array passes exactly when every element carries such a
marker; the empty array returns false; and an object carrying no capability
tag fails both isTrack and isUnresolvedTrack. -/
theorem c8_validate_spec :
    (TrackUtils.validate none = .error "Provided argument must be present.")
    ∧ (∀ o : TObj, TrackUtils.validate (some (.obj o)) = .ok true ↔
        (tagVal o.trackSym = some true ∨ tagVal o.unresolvedSym = some true))
    ∧ (∀ l : List TObj, l ≠ [] →
        (TrackUtils.validate (some (.arr l)) = .ok true ↔
          ∀ o ∈ l, tagVal o.trackSym = some true ∨ tagVal o.unresolvedSym = some true))
    ∧ (TrackUtils.validate (some (.arr [])) = .ok false)
    ∧ (∀ o : TObj, o.trackSym = none → o.unresolvedSym = none →
        TrackUtils.isTrack (some o) = .ok false ∧ TrackUtils.isUnresolvedTrack (some o) = .ok false) := by
  refine ⟨rfl, ?_, ?_, rfl, ?_⟩
  · intro o
    simp only [TrackUtils.validate, argTags, Except.ok.injEq]
    exact jsOrBool_true_iff _ _
  · intro l hl
    have hlen : l.length ≠ 0 := by
      simpa [List.length_eq_zero] using hl
    simp only [TrackUtils.validate]
    rw [if_pos hlen]
    simp only [Except.ok.injEq]
    rw [List.all_eq_true]
    constructor
    · intro h o ho
      exact (jsOrBool_true_iff _ _).mp (h o ho)
    · intro h o ho
      exact (jsOrBool_true_iff _ _).mpr (h o ho)
  · intro o h1 h2
    constructor
    · simp [TrackUtils.isTrack, h1, tagVal]
    · simp [TrackUtils.isUnresolvedTrack, h2, tagVal]

/-- Witness for C8 at concrete inputs: a singleton array of a tagged track
passes, and an untagged object fails both checks. -/
theorem c8_witness :
    TrackUtils.validate (some (.arr [⟨[], some ⟨true, false⟩, none⟩])) = .ok true
    ∧ TrackUtils.isTrack (some ⟨[], none, none⟩) = .ok false
    ∧ TrackUtils.isUnresolvedTrack (some ⟨[], none, none⟩) = .ok false := by
  refine ⟨?_, ?_, ?_⟩
  · refine (c8_validate_spec.2.2.1 [⟨[], some ⟨true, false⟩, none⟩] (by simp)).mpr ?_
    intro o ho
    rw [List.mem_singleton] at ho
    subst ho
    left
    rfl
  · exact (c8_validate_spec.2.2.2.2 ⟨[], none, none⟩ rfl rfl).1
  · exact (c8_validate_spec.2.2.2.2 ⟨[], none, none⟩ rfl rfl).2

/-! ## C6: setTrackPartial and the build projection -/

theorem map_fst_filter_key (f : String → Bool) (l : List (String × JV)) :
    (l.filter (fun kv => f kv.1)).map Prod.fst = (l.map Prod.fst).filter f := by
  induction l with
  | nil => rfl
  | cons kv l ih =>
    by_cases h : f kv.1 = true
    · simp [List.filter_cons, h, ih]
    · simp [List.filter_cons, h, ih]

theorem builtFields_keys (d : TrackData) (rq : JV) :
    (builtFields d rq).map Prod.fst =
      ["track", "title", "identifier", "author", "duration", "isSeekable",
       "isStream", "uri", "thumbnail", "displayThumbnail", "requester"] := rfl

theorem filterMap_strOrNot (strs : List String) :
    (strs.map StrOrNot.str).filterMap
      (fun e => match e with | .str s => some s | .notStr => none) = strs := by
  induction strs with
  | nil => rfl
  | cons s strs ih => simp only [List.map_cons, List.filterMap_cons, ih]

/-- C6: setTrackPartial rejects a non-array and an array with a non-string
element, prepends "track" when absent, and every list it stores contains
"track"; a build under a stored whitelist keeps exactly the built keys that
the whitelist contains (for the whitelist track-title, exactly those two
keys), attaches the resolved tag, and a build with the whitelist unset (as
for tracks built before the setter ran) keeps all eleven keys. -/
theorem c6_track_partial_projection :
    (TrackUtils.setTrackPartial .notArr = .error "Provided partial is not an array or not a string array.")
    ∧ (∀ l : List StrOrNot, StrOrNot.notStr ∈ l →
        TrackUtils.setTrackPartial (.arr l) = .error "Provided partial is not an array or not a string array.")
    ∧ (∀ strs : List String, TrackUtils.setTrackPartial (.arr (strs.map .str)) =
        .ok (if strs.contains "track" then strs else "track" :: strs))
    ∧ (∀ (inp : PartialArg) (p : List String), TrackUtils.setTrackPartial inp = .ok p →
        p.contains "track" = true)
    ∧ (∀ (p : List String) (d : TrackData) (rq : JV),
        (mkTrack (some p) d rq).fields.map Prod.fst =
          (["track", "title", "identifier", "author", "duration", "isSeekable",
            "isStream", "uri", "thumbnail", "displayThumbnail", "requester"].filter p.contains)
        ∧ (mkTrack (some p) d rq).trackSym = some ⟨true, false⟩
        ∧ (mkTrack (some p) d rq).unresolvedSym = none)
    ∧ (∀ (d : TrackData) (rq : JV),
        (mkTrack (some ["track", "title"]) d rq).fields.map Prod.fst = ["track", "title"])
    ∧ (∀ (d : TrackData) (rq : JV),
        (mkTrack none d rq).fields.map Prod.fst =
          ["track", "title", "identifier", "author", "duration", "isSeekable",
           "isStream", "uri", "thumbnail", "displayThumbnail", "requester"]
        ∧ (mkTrack none d rq).trackSym = some ⟨true, false⟩) := by
  have hproj : ∀ (p : List String) (d : TrackData) (rq : JV),
      (mkTrack (some p) d rq).fields.map Prod.fst =
        (["track", "title", "identifier", "author", "duration", "isSeekable",
          "isStream", "uri", "thumbnail", "displayThumbnail", "requester"].filter p.contains) := by
    intro p d rq
    show ((builtFields d rq).filter (fun kv => p.contains kv.1)).map Prod.fst = _
    rw [map_fst_filter_key, builtFields_keys]
  refine ⟨rfl, ?_, ?_, ?_, ?_, ?_, ?_⟩
  · intro l hl
    simp only [TrackUtils.setTrackPartial]
    have hfalse : (l.all fun e => match e with | .str _ => true | .notStr => false) = false := by
      rw [List.all_eq_false]
      exact ⟨.notStr, hl, by decide⟩
    rw [hfalse]
    simp
  · intro strs
    simp only [TrackUtils.setTrackPartial]
    have hall : ((strs.map StrOrNot.str).all fun e => match e with | .str _ => true | .notStr => false) = true := by
      rw [List.all_eq_true]
      intro e he
      rw [List.mem_map] at he
      obtain ⟨x, -, hx⟩ := he
      rw [← hx]
    rw [hall]
    rw [filterMap_strOrNot]
    simp
  · intro inp p h
    cases inp with
    | notArr => simp [TrackUtils.setTrackPartial] at h
    | arr l =>
      simp only [TrackUtils.setTrackPartial] at h
      split at h
      · rw [Except.ok.injEq] at h
        subst h
        split
        · assumption
        · simp
      · simp at h
  · intro p d rq
    exact ⟨hproj p d rq, rfl, rfl⟩
  · intro d rq
    rw [hproj]
    decide
  · intro d rq
    exact ⟨rfl, rfl⟩

/-- Witness for C6 at concrete inputs: the rejected inputs, the stored
track-title whitelist, and the projected keys of a concrete build. -/
theorem c6_witness :
    TrackUtils.setTrackPartial (.arr [.str "title", .notStr]) =
      .error "Provided partial is not an array or not a string array."
    ∧ TrackUtils.setTrackPartial (.arr [.str "title"]) = .ok ["track", "title"]
    ∧ (mkTrack (some ["track", "title"])
        ⟨"b64", ⟨"Song", "id1", "Artist", 180000, true, false, "uri"⟩⟩ .undef).fields.map Prod.fst =
      ["track", "title"]
    ∧ TrackUtils.setTrackPartial (.arr [.str "track", .str "uri"]) = .ok ["track", "uri"] := by
  refine ⟨?_, ?_, ?_, ?_⟩
  · exact c6_track_partial_projection.2.1 [.str "title", .notStr] (by simp)
  · have h := c6_track_partial_projection.2.2.1 ["title"]
    simpa using h
  · exact c6_track_partial_projection.2.2.2.2.2.1
      ⟨"b64", ⟨"Song", "id1", "Artist", 180000, true, false, "uri"⟩⟩ .undef
  · have h := c6_track_partial_projection.2.2.1 ["track", "uri"]
    simpa using h

/-! ## C1: the capability tag after an in-place resolve

Object.getOwnPropertyNames lists only string-keyed properties, so the
deletion pass of resolve() leaves the unresolved symbol in place, and
Object.assign copies only enumerable properties, so the resolved track's
non-enumerable TRACK_SYMBOL is not copied onto the target. -/

/-- Counterexample to C1: for a concretely built unresolved track whose
resolve() lookup succeeds with a concretely built track, the mutated object
still fails isTrack and still passes isUnresolvedTrack, so the hidden tag
does not flip from unresolved to resolved. -/
theorem c1_counterexample :
    TrackUtils.isTrack (some (resolveStep (buildUnresolvedObj (.str "test") .undef)
      (.ok (mkTrack none ⟨"b64", ⟨"Song", "id1", "Artist", 180000, true, false, "uri"⟩⟩ .undef))).1) =
      .ok false
    ∧ TrackUtils.isUnresolvedTrack (some (resolveStep (buildUnresolvedObj (.str "test") .undef)
      (.ok (mkTrack none ⟨"b64", ⟨"Song", "id1", "Artist", 180000, true, false, "uri"⟩⟩ .undef))).1) =
      .ok true := by
  constructor <;> rfl

/-- C1 amended: after a successful resolve() of any built unresolved track
with any built track, the object (same identity, mutated in place) still
carries only the unresolved tag: isTrack is false and isUnresolvedTrack is
true, because the string-keyed deletion spares the unresolved symbol and the
assignment does not copy the non-enumerable resolved symbol. -/
theorem c1_resolve_keeps_unresolved_tag (q : UQuery) (rq rqT : JV)
    (wl : Option (List String)) (d : TrackData) :
    (resolveStep (buildUnresolvedObj q rq) (.ok (mkTrack wl d rqT))).2 = none
    ∧ TrackUtils.isTrack
        (some (resolveStep (buildUnresolvedObj q rq) (.ok (mkTrack wl d rqT))).1) = .ok false
    ∧ TrackUtils.isUnresolvedTrack
        (some (resolveStep (buildUnresolvedObj q rq) (.ok (mkTrack wl d rqT))).1) = .ok true := by
  refine ⟨rfl, ?_, ?_⟩
  · simp [resolveStep, objAssign, assignSym, clearStringProps, buildUnresolvedObj, mkTrack,
      TrackUtils.isTrack, tagVal]
  · simp [resolveStep, objAssign, assignSym, clearStringProps, buildUnresolvedObj, mkTrack,
      TrackUtils.isUnresolvedTrack, tagVal]

/-! ## C2: the object's state when resolve() fails -/

/-- Counterexample to C2: the awaited lookup runs before any deletion, so a
failing resolve() propagates the error while the object's original fields are
all still present - the claimed outcome (fields already cleared on failure,
no throwing outcome with intact fields) does not occur. -/
theorem c2_counterexample :
    resolveStep (buildUnresolvedObj (.str "song") .undef) (.error "No tracks found.") =
      (buildUnresolvedObj (.str "song") .undef, some "No tracks found.")
    ∧ (buildUnresolvedObj (.str "song") .undef).fields =
      [("requester", .undef), ("resolve", .func), ("title", .str "song")] := by
  constructor <;> rfl

/-- C2 amended: resolve() either throws with the object completely untouched
(the lookup error propagates and every original field survives), or succeeds
and fully repopulates the object, its fields becoming exactly the resolved
track's fields; clearing only ever happens after a successful lookup. -/
theorem c2_resolve_error_or_repopulate :
    (∀ (o : TObj) (e : String), resolveStep o (.error e) = (o, some e))
    ∧ (∀ (o r : TObj), (r.fields.map Prod.fst).Nodup →
        (resolveStep o (.ok r)).1.fields = r.fields ∧ (resolveStep o (.ok r)).2 = none) := by
  constructor
  · intro o e
    rfl
  · intro o r hnd
    constructor
    · show r.fields.foldl setField [] = r.fields
      have h := foldl_setField_append r.fields []
      simpa using h hnd
    · rfl

/-- Witness for C2 at concrete inputs: a failing lookup leaves the concrete
unresolved object's fields intact, and a successful lookup repopulates them
with the concrete track's fields. -/
theorem c2_witness :
    resolveStep (buildUnresolvedObj (.str "q") .undef) (.error "boom") =
      (buildUnresolvedObj (.str "q") .undef, some "boom")
    ∧ (resolveStep (buildUnresolvedObj (.str "q") .undef)
        (.ok (mkTrack none ⟨"b64", ⟨"Song", "id1", "Artist", 180000, true, false, "uri"⟩⟩ .undef))).1.fields =
      (mkTrack none ⟨"b64", ⟨"Song", "id1", "Artist", 180000, true, false, "uri"⟩⟩ .undef).fields := by
  constructor
  · exact c2_resolve_error_or_repopulate.1 (buildUnresolvedObj (.str "q") .undef) "boom"
  · exact (c2_resolve_error_or_repopulate.2 (buildUnresolvedObj (.str "q") .undef)
      (mkTrack none ⟨"b64", ⟨"Song", "id1", "Artist", 180000, true, false, "uri"⟩⟩ .undef)
      (by decide)).1

/-! ## C3: getClosestTrack's selection policy -/

/-- Counterexample to C3: with an author given that matches no candidate and
a duration given, the code still consults the duration window and returns
the second candidate - neither the head of the list (the claim's exclusive
step 3) nor an author-step match, refuting the claim that the duration step
runs only when no author was given. -/
theorem c3_counterexample :
    getClosestSelect (some "X") "T" (some 100000)
      [⟨"A", "S", 900000⟩, ⟨"B", "S2", 100500⟩] = some ⟨"B", "S2", 100500⟩
    ∧ List.find? (step1Pred "X" "T") [⟨"A", "S", 900000⟩, ⟨"B", "S2", 100500⟩] = none
    ∧ List.head? [(⟨"A", "S", 900000⟩ : RTrack), ⟨"B", "S2", 100500⟩] = some ⟨"A", "S", 900000⟩
    ∧ (⟨"B", "S2", 100500⟩ : RTrack) ≠ ⟨"A", "S", 900000⟩ := by
  refine ⟨?_, ?_, rfl, by decide⟩
  · rfl
  · rfl

/-- C3 amended: the three selection steps fall through rather than being
exclusive: a truthy author field makes the author/title scan decide when it
finds a match; whenever it does not (author falsy, or no candidate matched),
a truthy duration field makes the 1500ms window scan decide when it finds a
match; and when neither scan decided, the first candidate is returned
unconditionally. -/
theorem c3_selection_fallthrough (a : Option String) (title : String) (d : Option Int)
    (ts : List RTrack) :
    (∀ t, truthyStr a = true → ts.find? (step1Pred (a.getD "") title) = some t →
      getClosestSelect a title d ts = some t)
    ∧ (∀ t, (truthyStr a = false ∨ ts.find? (step1Pred (a.getD "") title) = none) →
      truthyInt d = true → ts.find? (step2Pred (d.getD 0)) = some t →
      getClosestSelect a title d ts = some t)
    ∧ ((truthyStr a = false ∨ ts.find? (step1Pred (a.getD "") title) = none) →
      (truthyInt d = false ∨ ts.find? (step2Pred (d.getD 0)) = none) →
      getClosestSelect a title d ts = ts.head?) := by
  refine ⟨?_, ?_, ?_⟩
  · intro t ha hf
    simp [getClosestSelect, ha, hf]
  · intro t h1 hd hf
    rcases h1 with h1 | h1
    · simp [getClosestSelect, h1, hd, hf]
    · cases ha : truthyStr a with
      | false => simp [getClosestSelect, ha, hd, hf]
      | true => simp [getClosestSelect, ha, h1, hd, hf]
  · intro h1 h2
    cases ha : truthyStr a with
    | false =>
      cases hd : truthyInt d with
      | false => simp [getClosestSelect, ha, hd]
      | true =>
        have hf2 : ts.find? (step2Pred (d.getD 0)) = none := by
          rcases h2 with h2 | h2
          · rw [h2] at hd
            simp at hd
          · exact h2
        rw [getClosestSelect]
        simp only [ha, hd]
        simp [hf2]
    | true =>
      have hf1 : ts.find? (step1Pred (a.getD "") title) = none := by
        rcases h1 with h1 | h1
        · rw [h1] at ha
          simp at ha
        · exact h1
      cases hd : truthyInt d with
      | false =>
        rw [getClosestSelect]
        simp only [ha, hd]
        simp [hf1]
      | true =>
        have hf2 : ts.find? (step2Pred (d.getD 0)) = none := by
          rcases h2 with h2 | h2
          · rw [h2] at hd
            simp at hd
          · exact h2
        rw [getClosestSelect]
        simp only [ha, hd]
        simp [hf1, hf2]

/-- Witness for C3 at concrete inputs: one selection through each of the
three fall-through steps. -/
theorem c3_witness :
    getClosestSelect (some "X") "T" none [⟨"x", "T2", 5⟩] = some ⟨"x", "T2", 5⟩
    ∧ getClosestSelect (some "X") "T" (some 100)
        [⟨"A", "S", 999999⟩, ⟨"B", "S2", 1000⟩] = some ⟨"B", "S2", 1000⟩
    ∧ getClosestSelect none "T" none [⟨"A", "S", 1⟩, ⟨"B", "S2", 2⟩] = some ⟨"A", "S", 1⟩ := by
  refine ⟨?_, ?_, ?_⟩
  · exact (c3_selection_fallthrough (some "X") "T" none [⟨"x", "T2", 5⟩]).1
      ⟨"x", "T2", 5⟩ (by decide) (by decide)
  · exact (c3_selection_fallthrough (some "X") "T" (some 100)
      [⟨"A", "S", 999999⟩, ⟨"B", "S2", 1000⟩]).2.1 ⟨"B", "S2", 1000⟩
      (Or.inr (by decide)) (by decide) (by decide)
  · exact (c3_selection_fallthrough none "T" none [⟨"A", "S", 1⟩, ⟨"B", "S2", 2⟩]).2.2
      (Or.inl (by decide)) (Or.inl (by decide))

/-! ## Helper lemmas: the greedy decomposition -/

theorem decomposeGo_nonpos (fuel : Nat) (ms : Int) (t : Times) (h : ¬ ms > 0) :
    decomposeGo fuel ms t = t := by
  cases fuel with
  | zero => rfl
  | succ f =>
    simp only [decomposeGo]
    rw [if_neg h]

theorem decomposeGo_seconds (fuel : Nat) (ms : Int) (t : Times) (h1 : 0 < ms)
    (h2 : ms < 60000) (hf : 2 ≤ fuel) :
    decomposeGo fuel ms t = { t with seconds := (ms.toNat + 500) / 1000 } := by
  rcases fuel with _ | f
  · omega
  simp only [decomposeGo]
  rw [if_pos h1, if_neg (by omega), if_neg (by omega), if_neg (by omega), if_neg (by omega),
    if_neg (by omega), if_neg (by omega)]
  exact decomposeGo_nonpos f 0 _ (by omega)

theorem decompose_zeroTimes_of_small (ms : Int) (h : ms < 0 ∨ (0 < ms ∧ ms < 500)) :
    decompose ms = ⟨0, 0, 0, 0, 0, 0, 0⟩ := by
  rcases h with h | ⟨h1, h2⟩
  · exact decomposeGo_nonpos _ ms _ (by omega)
  · unfold decompose
    rw [decomposeGo_seconds (ms.toNat + 1) ms _ h1 (by omega) (by omega)]
    have hz : (ms.toNat + 500) / 1000 = 0 := by omega
    rw [hz]

/-! ## C5: whole weeks in formatTime -/

/-- C5 (the code at the claim's failing input): the weeks branch adds 7 to a
distinct weeks counter, so one week renders minimally as a 07 in a separate
weeks column followed by a zero days column, and non-minimally as the unit
word weeks with count 7 - not as 7 folded into the days column as the claim,
matching the evident intent of adding 7 days per week, states. -/
theorem c5_week_rendering :
    Utils.formatTime 604800000 true = "07:00:00:00:00"
    ∧ Utils.formatTime 604800000 false = "7 weeks" := by
  constructor <;> rfl

/-! ## Helper lemmas: shapes of the two renderings -/

theorem pad2_all_digit (v : Nat) : ∀ c ∈ pad2 v, isDigitCh c = true := by
  intro c hc
  unfold pad2 at hc
  split at hc
  · rcases List.mem_cons.mp hc with hc | hc
    · rw [hc]
      rfl
    · exact mem_natToChars_digit v c hc
  · exact mem_natToChars_digit v c hc

theorem pad2_eq_00_imp (v : Nat) (h : pad2 v = ['0', '0']) : v = 0 := by
  unfold pad2 at h
  split at h
  · have h2 : natToChars v = ['0'] := by
      injection h
    have h3 := natFromDigits_natToChars v
    rw [h2] at h3
    exact h3.symm
  · have h3 := natFromDigits_natToChars v
    rw [h] at h3
    exact h3.symm

theorem renderMinimal_shape (es : List (List Char × Nat)) :
    renderMinimal es false = [] ∨
      ∃ v tl, v ≠ 0 ∧ renderMinimal es false = pad2 v :: tl := by
  induction es with
  | nil => left; rfl
  | cons kv es ih =>
    obtain ⟨k, v⟩ := kv
    by_cases hv : v = 0
    · simp only [renderMinimal, hv]
      simpa using ih
    · right
      refine ⟨v, renderMinimal es true, hv, ?_⟩
      simp only [renderMinimal]
      rw [if_neg (by simp [hv])]

theorem renderMinimal_mem (es : List (List Char × Nat)) : ∀ first : Bool,
    ∀ x ∈ renderMinimal es first, ∃ v, x = pad2 v := by
  induction es with
  | nil => intro first x hx; simp [renderMinimal] at hx
  | cons kv es ih =>
    intro first x hx
    obtain ⟨k, v⟩ := kv
    simp only [renderMinimal] at hx
    split at hx
    · exact ih first x hx
    · rcases List.mem_cons.mp hx with hx | hx
      · exact ⟨v, hx⟩
      · exact ih true x hx

theorem mem_joinSep (sep : List Char) : ∀ (l : List (List Char)),
    ∀ c ∈ joinSep sep l, c ∈ sep ∨ ∃ x ∈ l, c ∈ x := by
  intro l
  induction l with
  | nil => intro c hc; simp [joinSep] at hc
  | cons x xs ih =>
    intro c hc
    cases xs with
    | nil =>
      right
      exact ⟨x, by simp, hc⟩
    | cons y ys =>
      simp only [joinSep] at hc
      rw [List.mem_append, List.mem_append] at hc
      rcases hc with (hc | hc) | hc
      · right; exact ⟨x, by simp, hc⟩
      · left; exact hc
      · rcases ih c hc with hc | ⟨z, hz, hcz⟩
        · left; exact hc
        · right; exact ⟨z, by simp [hz], hcz⟩

theorem jsCommaAnd_of_not_contains (cs : List Char) (h : cs.contains ',' = false) :
    jsCommaAnd cs = cs := by
  unfold jsCommaAnd
  rw [h]
  simp

theorem append_cons_inj (x : Char) : ∀ (A C B D : List Char), (∀ c ∈ A, c ≠ x) →
    (∀ c ∈ C, c ≠ x) → A ++ x :: B = C ++ x :: D → A = C := by
  intro A
  induction A with
  | nil =>
    intro C B D _ hC he
    cases C with
    | nil => rfl
    | cons c C' =>
      simp only [List.nil_append, List.cons_append, List.cons.injEq] at he
      exact absurd he.1.symm (hC c (by simp))
  | cons a A' ih =>
    intro C B D hA hC he
    cases C with
    | nil =>
      simp only [List.cons_append, List.nil_append, List.cons.injEq] at he
      exact absurd he.1 (hA a (by simp))
    | cons c C' =>
      simp only [List.cons_append, List.cons.injEq] at he
      rw [he.1, ih C' B D (fun y hy => hA y (by simp [hy])) (fun y hy => hC y (by simp [hy])) he.2]

theorem dropWhile_mem_head (p : Char → Bool) : ∀ l : List Char, (∃ y ∈ l, p y = false) →
    ∃ z zs, l.dropWhile p = z :: zs ∧ p z = false := by
  intro l
  induction l with
  | nil => intro h; simp at h
  | cons a l ih =>
    intro h
    by_cases hp : p a = true
    · rw [List.dropWhile_cons_of_pos hp]
      apply ih
      obtain ⟨y, hy, hpy⟩ := h
      rcases List.mem_cons.mp hy with hy | hy
      · rw [hy] at hpy
        rw [hpy] at hp
        simp at hp
      · exact ⟨y, hy, hpy⟩
    · rw [List.dropWhile_cons_of_neg hp]
      exact ⟨a, l, rfl, by simpa using hp⟩

theorem head_append_ne_nil (A B : List Char) (a : Char) (A' : List Char) (h : A = a :: A') :
    (A ++ B).head? = some a := by
  rw [h]
  rfl

theorem jsCommaAnd_head (cs : List Char) (c : Char) (hh : cs.head? = some c) (hc : c ≠ ',') :
    (jsCommaAnd cs).head? = some c := by
  cases hcon : cs.contains ',' with
  | false =>
    rw [jsCommaAnd_of_not_contains cs hcon]
    exact hh
  | true =>
    have hmem : ',' ∈ cs.reverse := by
      rw [List.mem_reverse]
      simpa using hcon
    obtain ⟨z, zs, hdw, hz⟩ :=
      dropWhile_mem_head (fun x => !(x == ',')) cs.reverse ⟨',', hmem, by simp⟩
    have hz' : z = ',' := by simpa using hz
    subst hz'
    have hsplit : cs.reverse.takeWhile (fun x => !(x == ',')) ++ (',' :: zs) = cs.reverse := by
      rw [← hdw]
      exact List.takeWhile_append_dropWhile _ _
    have hrec : cs = (zs.reverse ++ [',']) ++ (cs.reverse.takeWhile (fun x => !(x == ','))).reverse := by
      conv_lhs => rw [← List.reverse_reverse cs, ← hsplit]
      rw [List.reverse_append, List.reverse_cons]
    have hresult : jsCommaAnd cs =
        zs.reverse ++ (" and ").data ++ (cs.reverse.takeWhile (fun x => !(x == ','))).reverse := by
      unfold jsCommaAnd
      rw [hcon]
      simp only [if_true, hdw]
    rcases hA : zs.reverse with _ | ⟨a, A'⟩
    · rw [hA] at hrec
      simp only [List.nil_append] at hrec
      rw [hrec] at hh
      simp only [List.cons_append, List.head?_cons, Option.some.injEq] at hh
      exact absurd hh.symm hc
    · have hcs : cs.head? = some a := by
        rw [hrec, hA]
        rfl
      rw [hcs] at hh
      rw [Option.some.injEq] at hh
      rw [hresult, hA]
      rw [← hh]
      rfl

theorem renderFull_shape (es : List (List Char × Nat)) :
    renderFull es = [] ∨
      ∃ v k tl, v > 0 ∧ renderFull es = (natToChars v ++ ' ' :: k) :: tl := by
  induction es with
  | nil => left; rfl
  | cons kv es ih =>
    obtain ⟨k, v⟩ := kv
    by_cases hv : v > 0
    · right
      refine ⟨v, (if v > 1 then k else k.dropLast), renderFull es, hv, ?_⟩
      simp only [renderFull]
      rw [if_pos hv]
    · simp only [renderFull]
      rw [if_neg hv]
      exact ih

theorem joinSep_head (sep : List Char) (x : List Char) (xs : List (List Char))
    (a : Char) (x' : List Char) (hx : x = a :: x') :
    (joinSep sep (x :: xs)).head? = some a := by
  cases xs with
  | nil =>
    show x.head? = some a
    rw [hx]
    rfl
  | cons y ys =>
    show (x ++ sep ++ joinSep sep (y :: ys)).head? = some a
    rw [List.append_assoc]
    exact head_append_ne_nil x _ a x' hx

theorem formatTimeChars_minimal (ms : Int) (hne : ¬ (ms = 0)) :
    formatTimeChars ms true =
      jsCommaAnd (joinSep [':']
        (if (renderMinimal (unitEntries (decompose ms)) false).length = 1
         then ('0' :: '0' :: []) :: renderMinimal (unitEntries (decompose ms)) false
         else renderMinimal (unitEntries (decompose ms)) false)) := by
  unfold formatTimeChars
  rw [if_neg hne]
  rfl

theorem formatTimeChars_full (ms : Int) (hne : ¬ (ms = 0)) :
    formatTimeChars ms false =
      jsCommaAnd (joinSep (',' :: ' ' :: []) (renderFull (unitEntries (decompose ms)))) := by
  unfold formatTimeChars
  rw [if_neg hne]
  rfl

theorem formatTime_minimal_ne_00 (ms : Int) (hne : ms ≠ 0) : Utils.formatTime ms true ≠ "00:00" := by
  intro heq
  have hdata : formatTimeChars ms true = ('0' :: '0' :: ':' :: '0' :: '0' :: []) :=
    congrArg String.data heq
  rw [formatTimeChars_minimal ms hne] at hdata
  rcases renderMinimal_shape (unitEntries (decompose ms)) with hl | ⟨v, tl, hv, hl⟩
  · rw [hl] at hdata
    exact absurd hdata (by decide)
  · rw [hl] at hdata
    cases tl with
    | nil =>
      rw [if_pos (by rfl)] at hdata
      have hnc : ((('0' :: '0' :: []) ++ [':'] ++ pad2 v).contains ',') = false := by
        apply not_contains_of_forall_ne
        intro c hcm
        rw [List.mem_append] at hcm
        rcases hcm with hcm | hcm
        · fin_cases hcm <;> decide
        · exact isDigitCh_ne c ',' (pad2_all_digit v c hcm) (by decide)
      have hjoin : joinSep [':'] (('0' :: '0' :: []) :: pad2 v :: []) =
          ('0' :: '0' :: []) ++ [':'] ++ pad2 v := rfl
      rw [hjoin, jsCommaAnd_of_not_contains _ hnc] at hdata
      simp only [List.cons_append, List.nil_append] at hdata
      have hp : pad2 v = ['0', '0'] := by
        simpa using hdata
      exact hv (pad2_eq_00_imp v hp)
    | cons t1 tl' =>
      rw [if_neg (by simp)] at hdata
      have hjoin : joinSep [':'] (pad2 v :: t1 :: tl') =
          pad2 v ++ ':' :: joinSep [':'] (t1 :: tl') := by
        show pad2 v ++ [':'] ++ joinSep [':'] (t1 :: tl') = _
        rw [List.append_assoc]
        rfl
      rw [hjoin] at hdata
      have hnc : ((pad2 v ++ ':' :: joinSep [':'] (t1 :: tl')).contains ',') = false := by
        apply not_contains_of_forall_ne
        intro c hcm
        rw [List.mem_append] at hcm
        rcases hcm with hcm | hcm
        · exact isDigitCh_ne c ',' (pad2_all_digit v c hcm) (by decide)
        · rcases List.mem_cons.mp hcm with hcm | hcm
          · rw [hcm]
            decide
          · rcases mem_joinSep [':'] (t1 :: tl') c hcm with hs | ⟨x, hx, hcx⟩
            · rw [List.mem_singleton] at hs
              rw [hs]
              decide
            · have hmemr : x ∈ renderMinimal (unitEntries (decompose ms)) false := by
                rw [hl]
                simp [hx]
              obtain ⟨u, hu⟩ := renderMinimal_mem _ false x hmemr
              rw [hu] at hcx
              exact isDigitCh_ne c ',' (pad2_all_digit u c hcx) (by decide)
      rw [jsCommaAnd_of_not_contains _ hnc] at hdata
      have hrhs : ('0' :: '0' :: ':' :: '0' :: '0' :: [] : List Char) =
          ('0' :: '0' :: []) ++ ':' :: ('0' :: '0' :: []) := rfl
      rw [hrhs] at hdata
      have hp := append_cons_inj ':' (pad2 v) ('0' :: '0' :: []) _ _
        (fun c hcm => isDigitCh_ne c ':' (pad2_all_digit v c hcm) (by decide))
        (by decide) hdata
      exact hv (pad2_eq_00_imp v hp)

theorem formatTime_full_ne_NA (ms : Int) (hne : ms ≠ 0) : Utils.formatTime ms false ≠ "N/A" := by
  intro heq
  have hdata : formatTimeChars ms false = ('N' :: '/' :: 'A' :: []) :=
    congrArg String.data heq
  rw [formatTimeChars_full ms hne] at hdata
  rcases renderFull_shape (unitEntries (decompose ms)) with hl | ⟨v, k, tl, hv, hl⟩
  · rw [hl] at hdata
    exact absurd hdata (by decide)
  · rw [hl] at hdata
    obtain ⟨a, A', hA⟩ : ∃ a A', natToChars v = a :: A' := by
      rcases hnc : natToChars v with _ | ⟨a, A'⟩
      · exact absurd hnc (natToChars_ne_nil v)
      · exact ⟨a, A', rfl⟩
    have hdig : isDigitCh a = true := mem_natToChars_digit v a (by rw [hA]; simp)
    have hhead : (joinSep (',' :: ' ' :: []) ((natToChars v ++ ' ' :: k) :: tl)).head? = some a :=
      joinSep_head _ _ _ a (A' ++ ' ' :: k) (by rw [hA]; rfl)
    have hfinal := jsCommaAnd_head _ a hhead (isDigitCh_ne a ',' hdig (by decide))
    rw [hdata] at hfinal
    simp only [List.head?_cons, Option.some.injEq] at hfinal
    rw [← hfinal] at hdig
    exact absurd hdig (by decide)

/-! ## C9: formatTime on negative and sub-500ms inputs -/

/-- C9: every negative duration and every positive duration strictly below
500ms (whose sub-minute residue rounds to zero seconds) renders as the empty
string in both modes, without any error, while the input 0 renders as the
documented "00:00" and "N/A", and no nonzero input produces either of the
documented zero renderings. -/
theorem c9_format_small_empty (ms : Int) (h : ms < 0 ∨ (0 < ms ∧ ms < 500)) :
    Utils.formatTime ms true = "" ∧ Utils.formatTime ms false = ""
    ∧ Utils.formatTime 0 true = "00:00" ∧ Utils.formatTime 0 false = "N/A"
    ∧ (∀ ms2 : Int, ms2 ≠ 0 →
        Utils.formatTime ms2 true ≠ "00:00" ∧ Utils.formatTime ms2 false ≠ "N/A") := by
  have hne : ¬ (ms = 0) := by rcases h with h | ⟨h1, h2⟩ <;> omega
  have hdec := decompose_zeroTimes_of_small ms h
  refine ⟨?_, ?_, rfl, rfl, fun ms2 h2 =>
    ⟨formatTime_minimal_ne_00 ms2 h2, formatTime_full_ne_NA ms2 h2⟩⟩
  · show String.mk (formatTimeChars ms true) = ""
    simp only [formatTimeChars]
    rw [if_neg hne, hdec]
    rfl
  · show String.mk (formatTimeChars ms false) = ""
    simp only [formatTimeChars]
    rw [if_neg hne, hdec]
    rfl

/-- Witness for C9 at concrete inputs: a negative duration, one of 499ms, and
a nonzero duration that renders as neither zero rendering. -/
theorem c9_witness :
    Utils.formatTime (-5) true = "" ∧ Utils.formatTime 499 false = ""
    ∧ Utils.formatTime 0 false = "N/A"
    ∧ Utils.formatTime 61000 true ≠ "00:00" ∧ Utils.formatTime 61000 false ≠ "N/A" := by
  exact ⟨(c9_format_small_empty (-5) (by omega)).1,
    (c9_format_small_empty 499 (by omega)).2.1,
    (c9_format_small_empty (-5) (by omega)).2.2.2.1,
    ((c9_format_small_empty (-5) (by omega)).2.2.2.2 61000 (by omega)).1,
    ((c9_format_small_empty (-5) (by omega)).2.2.2.2 61000 (by omega)).2⟩

/-! ## Helper lemmas: the token scan -/

theorem jsTokensAux_nil (fuel : Nat) : jsTokensAux fuel [] = [] := by
  cases fuel <;> rfl

theorem takeWhile_head_neg (p : Char → Bool) (W : List Char) (w : Char) (W' : List Char)
    (hW : W = w :: W') (hw : p w = false) : W.takeWhile p = [] := by
  rw [hW]
  exact List.takeWhile_cons_of_neg (by simp [hw])

theorem dropWhile_head_neg (p : Char → Bool) (W : List Char) (w : Char) (W' : List Char)
    (hW : W = w :: W') (hw : p w = false) : W.dropWhile p = W := by
  rw [hW]
  exact List.dropWhile_cons_of_neg (by simp [hw])

theorem jsTokens_single_word (D W : List Char) (hD : D ≠ [])
    (hDd : ∀ c ∈ D, isDigitCh c = true) (hWne : W ≠ [])
    (hWd : ∀ c ∈ W, isDigitCh c = false)
    (hWdot : ∀ c ∈ W, (c == '.') = false) :
    jsTokens (D ++ W) = [D ++ W] := by
  obtain ⟨d, D', hDc⟩ : ∃ d D', D = d :: D' := by
    rcases D with _ | ⟨d, D'⟩
    · exact absurd rfl hD
    · exact ⟨d, D', rfl⟩
  obtain ⟨w, W', hWc⟩ : ∃ w W', W = w :: W' := by
    rcases W with _ | ⟨w, W'⟩
    · exact absurd rfl hWne
    · exact ⟨w, W', rfl⟩
  have hd : isDigitCh d = true := hDd d (by rw [hDc]; simp)
  have ht1 : (D ++ W).takeWhile isDigitCh = D := by
    rw [takeWhile_append_all isDigitCh D W hDd,
      takeWhile_head_neg isDigitCh W w W' hWc (hWd w (by rw [hWc]; simp))]
    simp
  have hr1 : (D ++ W).dropWhile isDigitCh = W := by
    rw [dropWhile_append_all isDigitCh D W hDd]
    exact dropWhile_head_neg isDigitCh W w W' hWc (hWd w (by rw [hWc]; simp))
  have hdots : W.takeWhile (fun x => x == '.') = [] :=
    takeWhile_head_neg _ W w W' hWc (hWdot w (by rw [hWc]; simp))
  have hr2 : W.dropWhile (fun x => x == '.') = W :=
    dropWhile_head_neg _ W w W' hWc (hWdot w (by rw [hWc]; simp))
  have hd2 : W.takeWhile isDigitCh = [] :=
    takeWhile_head_neg isDigitCh W w W' hWc (hWd w (by rw [hWc]; simp))
  have hr3 : W.dropWhile isDigitCh = W :=
    dropWhile_head_neg isDigitCh W w W' hWc (hWd w (by rw [hWc]; simp))
  have hnd : W.takeWhile (fun x => !(isDigitCh x)) = W :=
    takeWhile_all _ W (fun c hc => by simp [hWd c hc])
  have hr4 : W.dropWhile (fun x => !(isDigitCh x)) = [] :=
    dropWhile_all _ W (fun c hc => by simp [hWd c hc])
  have hcons : D ++ W = d :: (D' ++ W) := by rw [hDc]; rfl
  show jsTokensAux ((D ++ W).length + 1) (D ++ W) = [D ++ W]
  conv_lhs => rw [hcons]
  simp only [jsTokensAux, hd, Bool.not_true]
  rw [if_neg (by simp)]
  rw [← hcons, ht1, hr1, hdots, hr2, hd2, hr3, hnd, hr4]
  rw [if_pos (by rw [hWc]; simp)]
  rw [jsTokensAux_nil]
  rw [hWc]
  simp

theorem jsTokens_single_decimal (D1 D2 W : List Char) (hD1 : D1 ≠ [])
    (hD1d : ∀ c ∈ D1, isDigitCh c = true) (hD2 : D2 ≠ [])
    (hD2d : ∀ c ∈ D2, isDigitCh c = true) (hWne : W ≠ [])
    (hWd : ∀ c ∈ W, isDigitCh c = false)
    (hWdot : ∀ c ∈ W, (c == '.') = false) :
    jsTokens (D1 ++ '.' :: (D2 ++ W)) = [D1 ++ '.' :: (D2 ++ W)] := by
  obtain ⟨d, D', hDc⟩ : ∃ d D', D1 = d :: D' := by
    rcases D1 with _ | ⟨d, D'⟩
    · exact absurd rfl hD1
    · exact ⟨d, D', rfl⟩
  obtain ⟨e, E', hEc⟩ : ∃ e E', D2 = e :: E' := by
    rcases D2 with _ | ⟨e, E'⟩
    · exact absurd rfl hD2
    · exact ⟨e, E', rfl⟩
  obtain ⟨w, W', hWc⟩ : ∃ w W', W = w :: W' := by
    rcases W with _ | ⟨w, W'⟩
    · exact absurd rfl hWne
    · exact ⟨w, W', rfl⟩
  have hd : isDigitCh d = true := hD1d d (by rw [hDc]; simp)
  have ht1 : (D1 ++ '.' :: (D2 ++ W)).takeWhile isDigitCh = D1 := by
    rw [takeWhile_append_all isDigitCh D1 _ hD1d, List.takeWhile_cons_of_neg (by decide)]
    simp
  have hr1 : (D1 ++ '.' :: (D2 ++ W)).dropWhile isDigitCh = '.' :: (D2 ++ W) := by
    rw [dropWhile_append_all isDigitCh D1 _ hD1d]
    exact List.dropWhile_cons_of_neg (by decide)
  have hedot : (e == '.') = false := by
    simp only [beq_eq_false_iff_ne]
    exact isDigitCh_ne e '.' (hD2d e (by rw [hEc]; simp)) (by decide)
  have hdots : ('.' :: (D2 ++ W)).takeWhile (fun x => x == '.') = ['.'] := by
    rw [List.takeWhile_cons_of_pos (by decide),
      takeWhile_head_neg _ (D2 ++ W) e (E' ++ W) (by rw [hEc]; rfl) hedot]
  have hr2 : ('.' :: (D2 ++ W)).dropWhile (fun x => x == '.') = D2 ++ W := by
    rw [List.dropWhile_cons_of_pos (by decide)]
    exact dropWhile_head_neg _ (D2 ++ W) e (E' ++ W) (by rw [hEc]; rfl) hedot
  have hd2 : (D2 ++ W).takeWhile isDigitCh = D2 := by
    rw [takeWhile_append_all isDigitCh D2 W hD2d,
      takeWhile_head_neg isDigitCh W w W' hWc (hWd w (by rw [hWc]; simp))]
    simp
  have hr3 : (D2 ++ W).dropWhile isDigitCh = W := by
    rw [dropWhile_append_all isDigitCh D2 W hD2d]
    exact dropWhile_head_neg isDigitCh W w W' hWc (hWd w (by rw [hWc]; simp))
  have hnd : W.takeWhile (fun x => !(isDigitCh x)) = W :=
    takeWhile_all _ W (fun c hc => by simp [hWd c hc])
  have hr4 : W.dropWhile (fun x => !(isDigitCh x)) = [] :=
    dropWhile_all _ W (fun c hc => by simp [hWd c hc])
  have hcons : D1 ++ '.' :: (D2 ++ W) = d :: (D' ++ '.' :: (D2 ++ W)) := by rw [hDc]; rfl
  show jsTokensAux ((D1 ++ '.' :: (D2 ++ W)).length + 1) (D1 ++ '.' :: (D2 ++ W)) =
    [D1 ++ '.' :: (D2 ++ W)]
  conv_lhs => rw [hcons]
  simp only [jsTokensAux, hd, Bool.not_true]
  rw [if_neg (by simp)]
  rw [← hcons, ht1, hr1, hdots, hr2, hd2, hr3, hnd, hr4]
  rw [if_pos (by rw [hWc]; simp)]
  rw [jsTokensAux_nil]
  rw [hWc]
  simp

/-! ## Helper lemmas: token contributions -/

theorem tokenValue_word_aux (D W : List Char) (hDd : ∀ c ∈ D, isDigitCh c = true)
    (hmapW : W.map jsToLowerChar = W) (htwW : W.takeWhile isDigitCh = [])
    (hdwW : W.dropWhile isDigitCh = W) :
    ((D ++ W).map jsToLowerChar = D ++ W)
    ∧ ((D ++ W).takeWhile isDigitCh = D)
    ∧ ((D ++ W).dropWhile isDigitCh = W) := by
  refine ⟨?_, ?_, ?_⟩
  · rw [List.map_append, map_toLower_digits D hDd, hmapW]
  · rw [takeWhile_append_all isDigitCh D W hDd, htwW, List.append_nil]
  · rw [dropWhile_append_all isDigitCh D W hDd, hdwW]

theorem tokenValue_minutes (D : List Char) (hDd : ∀ c ∈ D, isDigitCh c = true) :
    tokenValue (D ++ ("minutes").data) = natFromDigits D * 60000 := by
  obtain ⟨hmap, htw, hdw⟩ := tokenValue_word_aux D ("minutes").data hDd (by decide) rfl rfl
  have e1 : jsEndsWith (D ++ ("minutes").data) ("seconds").data = false := by
    rw [jsEndsWith_append_right D _ _ (by decide)]
    decide
  have e2 : jsEndsWith (D ++ ("minutes").data) ("second").data = false := by
    rw [jsEndsWith_append_right D _ _ (by decide)]
    decide
  have e3 : jsEndsWith (D ++ ("minutes").data) ("s").data = true := by
    rw [jsEndsWith_append_right D _ _ (by decide)]
    decide
  have e4 : jsEndsWith (D ++ ("minutes").data) ("minutes").data = true := by
    rw [jsEndsWith_append_right D _ _ (by decide)]
    decide
  simp only [tokenValue, hmap, htw, hdw, e1, e2, e3, e4]
  simp
  intro h
  exact absurd h (by decide)

theorem tokenValue_seconds (D : List Char) (hDd : ∀ c ∈ D, isDigitCh c = true) :
    tokenValue (D ++ ("seconds").data) = natFromDigits D * 1000 := by
  obtain ⟨hmap, htw, hdw⟩ := tokenValue_word_aux D ("seconds").data hDd (by decide) rfl rfl
  have e1 : jsEndsWith (D ++ ("seconds").data) ("seconds").data = true := by
    rw [jsEndsWith_append_right D _ _ (by decide)]
    decide
  simp only [tokenValue, hmap, htw, hdw, e1]
  simp

theorem tokenValue_hours (D : List Char) (hDd : ∀ c ∈ D, isDigitCh c = true) :
    tokenValue (D ++ ("hours").data) = natFromDigits D * 3600000 := by
  obtain ⟨hmap, htw, hdw⟩ := tokenValue_word_aux D ("hours").data hDd (by decide) rfl rfl
  have e1 : jsEndsWith (D ++ ("hours").data) ("seconds").data = false := by
    apply jsEndsWith_append_long D _ _ (by decide)
    decide
  have e2 : jsEndsWith (D ++ ("hours").data) ("second").data = false := by
    apply jsEndsWith_append_long D _ _ (by decide)
    decide
  have e3 : jsEndsWith (D ++ ("hours").data) ("s").data = true := by
    rw [jsEndsWith_append_right D _ _ (by decide)]
    decide
  have e4 : jsEndsWith (D ++ ("hours").data) ("minutes").data = false := by
    apply jsEndsWith_append_long D _ _ (by decide)
    decide
  have e5 : jsEndsWith (D ++ ("hours").data) ("minute").data = false := by
    apply jsEndsWith_append_long D _ _ (by decide)
    decide
  have e6 : jsEndsWith (D ++ ("hours").data) ("m").data = false := by
    rw [jsEndsWith_append_right D _ _ (by decide)]
    decide
  have e7 : jsEndsWith (D ++ ("hours").data) ("hours").data = true := by
    rw [jsEndsWith_append_right D _ _ (by decide)]
    decide
  simp only [tokenValue, hmap, htw, hdw, e1, e2, e3, e4, e5, e6, e7]
  simp
  intro h
  exact absurd h (by decide)

theorem tokenValue_days (D : List Char) (hDd : ∀ c ∈ D, isDigitCh c = true) :
    tokenValue (D ++ ("days").data) = natFromDigits D * 86400000 := by
  obtain ⟨hmap, htw, hdw⟩ := tokenValue_word_aux D ("days").data hDd (by decide) rfl rfl
  have e1 : jsEndsWith (D ++ ("days").data) ("seconds").data = false := by
    apply jsEndsWith_append_long D _ _ (by decide)
    decide
  have e2 : jsEndsWith (D ++ ("days").data) ("second").data = false := by
    apply jsEndsWith_append_long D _ _ (by decide)
    decide
  have e3 : jsEndsWith (D ++ ("days").data) ("s").data = true := by
    rw [jsEndsWith_append_right D _ _ (by decide)]
    decide
  have e4 : jsEndsWith (D ++ ("days").data) ("minutes").data = false := by
    apply jsEndsWith_append_long D _ _ (by decide)
    decide
  have e5 : jsEndsWith (D ++ ("days").data) ("minute").data = false := by
    apply jsEndsWith_append_long D _ _ (by decide)
    decide
  have e6 : jsEndsWith (D ++ ("days").data) ("m").data = false := by
    rw [jsEndsWith_append_right D _ _ (by decide)]
    decide
  have e7 : jsEndsWith (D ++ ("days").data) ("hours").data = false := by
    apply jsEndsWith_append_long D _ _ (by decide)
    decide
  have e8 : jsEndsWith (D ++ ("days").data) ("hour").data = false := by
    rw [jsEndsWith_append_right D _ _ (by decide)]
    decide
  have e9 : jsEndsWith (D ++ ("days").data) ("h").data = false := by
    rw [jsEndsWith_append_right D _ _ (by decide)]
    decide
  have e10 : jsEndsWith (D ++ ("days").data) ("days").data = true := by
    rw [jsEndsWith_append_right D _ _ (by decide)]
    decide
  simp only [tokenValue, hmap, htw, hdw, e1, e2, e3, e4, e5, e6, e7, e8, e9, e10]
  simp
  intro h
  exact absurd h (by decide)

theorem tokenValue_h (D : List Char) (hDd : ∀ c ∈ D, isDigitCh c = true) :
    tokenValue (D ++ ("h").data) = natFromDigits D * 3600000 := by
  obtain ⟨hmap, htw, hdw⟩ := tokenValue_word_aux D ("h").data hDd (by decide) rfl rfl
  have e1 : jsEndsWith (D ++ ("h").data) ("seconds").data = false := by
    apply jsEndsWith_append_long D _ _ (by decide)
    decide
  have e2 : jsEndsWith (D ++ ("h").data) ("second").data = false := by
    apply jsEndsWith_append_long D _ _ (by decide)
    decide
  have e3 : jsEndsWith (D ++ ("h").data) ("s").data = false := by
    rw [jsEndsWith_append_right D _ _ (by decide)]
    decide
  have e4 : jsEndsWith (D ++ ("h").data) ("minutes").data = false := by
    apply jsEndsWith_append_long D _ _ (by decide)
    decide
  have e5 : jsEndsWith (D ++ ("h").data) ("minute").data = false := by
    apply jsEndsWith_append_long D _ _ (by decide)
    decide
  have e6 : jsEndsWith (D ++ ("h").data) ("m").data = false := by
    rw [jsEndsWith_append_right D _ _ (by decide)]
    decide
  have e7 : jsEndsWith (D ++ ("h").data) ("hours").data = false := by
    apply jsEndsWith_append_long D _ _ (by decide)
    decide
  have e8 : jsEndsWith (D ++ ("h").data) ("hour").data = false := by
    apply jsEndsWith_append_long D _ _ (by decide)
    decide
  have e9 : jsEndsWith (D ++ ("h").data) ("h").data = true := by
    rw [jsEndsWith_append_right D _ _ (by decide)]
    decide
  have hfnd : ((("h").data).takeWhile (fun c => !(isDigitCh c))).length = 1 := by decide
  simp only [tokenValue, hmap, htw, hdw, e1, e2, e3, e4, e5, e6, e7, e8, e9]
  simp [hfnd]

theorem tokenValue_h_decimal (D1 D2 : List Char) (hD1d : ∀ c ∈ D1, isDigitCh c = true)
    (hD2 : D2 ≠ []) (hD2d : ∀ c ∈ D2, isDigitCh c = true) :
    tokenValue (D1 ++ '.' :: (D2 ++ ("h").data)) = natFromDigits D1 * 3600000 := by
  obtain ⟨e, E', hEc⟩ : ∃ e E', D2 = e :: E' := by
    rcases D2 with _ | ⟨e, E'⟩
    · exact absurd rfl hD2
    · exact ⟨e, E', rfl⟩
  have hassoc : D1 ++ '.' :: (D2 ++ ("h").data) = (D1 ++ '.' :: D2) ++ ("h").data := by
    simp
  have hmap : (D1 ++ '.' :: (D2 ++ ("h").data)).map jsToLowerChar =
      D1 ++ '.' :: (D2 ++ ("h").data) := by
    rw [List.map_append, map_toLower_digits D1 hD1d, List.map_cons, List.map_append,
      map_toLower_digits D2 hD2d]
    rfl
  have htw : (D1 ++ '.' :: (D2 ++ ("h").data)).takeWhile isDigitCh = D1 := by
    rw [takeWhile_append_all isDigitCh D1 _ hD1d, List.takeWhile_cons_of_neg (by decide)]
    simp
  have hdw : (D1 ++ '.' :: (D2 ++ ("h").data)).dropWhile isDigitCh =
      '.' :: (D2 ++ ("h").data) := by
    rw [dropWhile_append_all isDigitCh D1 _ hD1d]
    exact List.dropWhile_cons_of_neg (by decide)
  have hfnd : (('.' :: (D2 ++ ("h").data)).takeWhile (fun c => !(isDigitCh c))).length = 1 := by
    rw [List.takeWhile_cons_of_pos (by decide),
      takeWhile_head_neg _ (D2 ++ ("h").data) e (E' ++ ("h").data) (by rw [hEc]; rfl)
        (by simp [hD2d e (by rw [hEc]; simp)])]
    rfl
  have e1 : jsEndsWith (D1 ++ '.' :: (D2 ++ ("h").data)) ("seconds").data = false := by
    rw [hassoc]
    apply jsEndsWith_append_long _ _ _ (by decide)
    decide
  have e2 : jsEndsWith (D1 ++ '.' :: (D2 ++ ("h").data)) ("second").data = false := by
    rw [hassoc]
    apply jsEndsWith_append_long _ _ _ (by decide)
    decide
  have e3 : jsEndsWith (D1 ++ '.' :: (D2 ++ ("h").data)) ("s").data = false := by
    rw [hassoc, jsEndsWith_append_right _ _ _ (by decide)]
    decide
  have e4 : jsEndsWith (D1 ++ '.' :: (D2 ++ ("h").data)) ("minutes").data = false := by
    rw [hassoc]
    apply jsEndsWith_append_long _ _ _ (by decide)
    decide
  have e5 : jsEndsWith (D1 ++ '.' :: (D2 ++ ("h").data)) ("minute").data = false := by
    rw [hassoc]
    apply jsEndsWith_append_long _ _ _ (by decide)
    decide
  have e6 : jsEndsWith (D1 ++ '.' :: (D2 ++ ("h").data)) ("m").data = false := by
    rw [hassoc, jsEndsWith_append_right _ _ _ (by decide)]
    decide
  have e7 : jsEndsWith (D1 ++ '.' :: (D2 ++ ("h").data)) ("hours").data = false := by
    rw [hassoc]
    apply jsEndsWith_append_long _ _ _ (by decide)
    decide
  have e8 : jsEndsWith (D1 ++ '.' :: (D2 ++ ("h").data)) ("hour").data = false := by
    rw [hassoc]
    apply jsEndsWith_append_long _ _ _ (by decide)
    decide
  have e9 : jsEndsWith (D1 ++ '.' :: (D2 ++ ("h").data)) ("h").data = true := by
    rw [hassoc, jsEndsWith_append_right _ _ _ (by decide)]
    decide
  simp only [tokenValue, hmap, htw, hdw, hfnd, e1, e2, e3, e4, e5, e6, e7, e8, e9]
  simp

/-! ## Helper lemmas: the parseTime pipeline -/

theorem isJsWs_digit (c : Char) (h : isDigitCh c = true) : isJsWs c = false := by
  unfold isDigitCh at h
  simp only [Bool.and_eq_true, decide_eq_true_eq] at h
  unfold isJsWs
  have h1 : (c == ' ') = false := by
    simp only [beq_eq_false_iff_ne]
    intro he
    rw [he] at h
    exact absurd h (by decide)
  have h2 : (c == '\t') = false := by
    simp only [beq_eq_false_iff_ne]
    intro he
    rw [he] at h
    exact absurd h (by decide)
  have h3 : (c == '\n') = false := by
    simp only [beq_eq_false_iff_ne]
    intro he
    rw [he] at h
    exact absurd h (by decide)
  have h4 : (c == '\r') = false := by
    simp only [beq_eq_false_iff_ne]
    intro he
    rw [he] at h
    exact absurd h (by decide)
  have h5 : (c == '\x0b') = false := by
    simp only [beq_eq_false_iff_ne]
    intro he
    rw [he] at h
    exact absurd h (by decide)
  have h6 : (c == '\x0c') = false := by
    simp only [beq_eq_false_iff_ne]
    intro he
    rw [he] at h
    exact absurd h (by decide)
  rw [h1, h2, h3, h4, h5, h6]
  rfl

theorem parseTimeChars_single_token (cs : List Char)
    (hcolon : cs.contains ':' = false) (hspace : cs.contains ' ' = false)
    (hnotall : (!cs.isEmpty && cs.all isDigitCh) = false)
    (htok : jsTokens cs = [cs]) :
    parseTimeChars cs = if tokenValue cs = 0 then none else some (tokenValue cs) := by
  simp only [parseTimeChars, hcolon, hspace, hnotall, Bool.false_eq_true, if_false, htok]
  simp

theorem parseTime_digits_word (D W : List Char) (hD : D ≠ [])
    (hDd : ∀ c ∈ D, isDigitCh c = true) (hWne : W ≠ [])
    (hWd : ∀ c ∈ W, isDigitCh c = false)
    (hWdot : ∀ c ∈ W, (c == '.') = false)
    (hWcolon : ∀ c ∈ W, c ≠ ':')
    (hWws : ∀ c ∈ W, isJsWs c = false) :
    parseTimeChars (D ++ ' ' :: W) =
      if tokenValue (D ++ W) = 0 then none else some (tokenValue (D ++ W)) := by
  obtain ⟨w, W', hWc⟩ : ∃ w W', W = w :: W' := by
    rcases W with _ | ⟨w, W'⟩
    · exact absurd rfl hWne
    · exact ⟨w, W', rfl⟩
  have hcolon : (D ++ ' ' :: W).contains ':' = false := by
    apply not_contains_of_forall_ne
    intro c hc
    rw [List.mem_append] at hc
    rcases hc with hc | hc
    · exact isDigitCh_ne c ':' (hDd c hc) (by decide)
    · rcases List.mem_cons.mp hc with hc | hc
      · rw [hc]
        decide
      · exact hWcolon c hc
  have hspace : (D ++ ' ' :: W).contains ' ' = true := by
    simp
  have hfilter : (D ++ ' ' :: W).filter (fun c => !(isJsWs c)) = D ++ W := by
    rw [List.filter_append]
    have hfD : D.filter (fun c => !(isJsWs c)) = D :=
      List.filter_eq_self.mpr (fun c hc => by simp [isJsWs_digit c (hDd c hc)])
    have hfW : (' ' :: W).filter (fun c => !(isJsWs c)) = W := by
      rw [List.filter_cons]
      rw [if_neg (by simp [isJsWs])]
      exact List.filter_eq_self.mpr (fun c hc => by simp [hWws c hc])
    rw [hfD, hfW]
  have hnotall : (!(D ++ W).isEmpty && (D ++ W).all isDigitCh) = false := by
    have : (D ++ W).all isDigitCh = false := by
      rw [List.all_eq_false]
      exact ⟨w, by rw [hWc]; simp, by simp [hWd w (by rw [hWc]; simp)]⟩
    rw [this]
    simp
  have htok : jsTokens (D ++ W) = [D ++ W] :=
    jsTokens_single_word D W hD hDd hWne hWd hWdot
  simp only [parseTimeChars, hcolon, hspace, Bool.false_eq_true, if_false, if_true, hfilter,
    hnotall, htok]
  simp

/-! ## Helper lemmas: single-unit decompositions -/

theorem decomposeGo_minutes : ∀ n : Nat, n ≤ 59 → ∀ fuel : Nat, n < fuel → ∀ t : Times,
    decomposeGo fuel ((n : Int) * 60000) t = { t with minutes := t.minutes + n } := by
  intro n
  induction n with
  | zero =>
    intro _ fuel _ t
    rw [decomposeGo_nonpos fuel _ t (by omega)]
    simp
  | succ n ih =>
    intro hn fuel hf t
    rcases fuel with _ | f
    · omega
    simp only [decomposeGo]
    rw [if_pos (by omega), if_neg (by omega), if_neg (by omega), if_neg (by omega),
      if_neg (by omega), if_neg (by omega), if_pos (by omega)]
    have harg : ((↑(n + 1) : Int) * 60000 - 60000) = (n : Int) * 60000 := by
      push_cast
      ring
    rw [harg, ih (by omega) f (by omega)]
    have hm : t.minutes + 1 + n = t.minutes + (n + 1) := by omega
    simp [hm]

theorem decomposeGo_hours : ∀ n : Nat, n ≤ 23 → ∀ fuel : Nat, n < fuel → ∀ t : Times,
    decomposeGo fuel ((n : Int) * 3600000) t = { t with hours := t.hours + n } := by
  intro n
  induction n with
  | zero =>
    intro _ fuel _ t
    rw [decomposeGo_nonpos fuel _ t (by omega)]
    simp
  | succ n ih =>
    intro hn fuel hf t
    rcases fuel with _ | f
    · omega
    simp only [decomposeGo]
    rw [if_pos (by omega), if_neg (by omega), if_neg (by omega), if_neg (by omega),
      if_neg (by omega), if_pos (by omega)]
    have harg : ((↑(n + 1) : Int) * 3600000 - 3600000) = (n : Int) * 3600000 := by
      push_cast
      ring
    rw [harg, ih (by omega) f (by omega)]
    have hm : t.hours + 1 + n = t.hours + (n + 1) := by omega
    simp [hm]

theorem decomposeGo_days : ∀ n : Nat, n ≤ 6 → ∀ fuel : Nat, n < fuel → ∀ t : Times,
    decomposeGo fuel ((n : Int) * 86400000) t = { t with days := t.days + n } := by
  intro n
  induction n with
  | zero =>
    intro _ fuel _ t
    rw [decomposeGo_nonpos fuel _ t (by omega)]
    simp
  | succ n ih =>
    intro hn fuel hf t
    rcases fuel with _ | f
    · omega
    simp only [decomposeGo]
    rw [if_pos (by omega), if_neg (by omega), if_neg (by omega), if_neg (by omega),
      if_pos (by omega)]
    have harg : ((↑(n + 1) : Int) * 86400000 - 86400000) = (n : Int) * 86400000 := by
      push_cast
      ring
    rw [harg, ih (by omega) f (by omega)]
    have hm : t.days + 1 + n = t.days + (n + 1) := by omega
    simp [hm]

theorem decompose_minutes (n : Nat) (h : n ≤ 59) :
    decompose ((n : Int) * 60000) = ⟨0, 0, 0, 0, 0, n, 0⟩ := by
  unfold decompose
  rw [decomposeGo_minutes n h _ (by omega)]
  simp

theorem decompose_hours (n : Nat) (h : n ≤ 23) :
    decompose ((n : Int) * 3600000) = ⟨0, 0, 0, 0, n, 0, 0⟩ := by
  unfold decompose
  rw [decomposeGo_hours n h _ (by omega)]
  simp

theorem decompose_days (n : Nat) (h : n ≤ 6) :
    decompose ((n : Int) * 86400000) = ⟨0, 0, 0, n, 0, 0, 0⟩ := by
  unfold decompose
  rw [decomposeGo_days n h _ (by omega)]
  simp

theorem decompose_seconds (n : Nat) (h1 : 1 ≤ n) (h2 : n ≤ 59) :
    decompose ((n : Int) * 1000) = ⟨0, 0, 0, 0, 0, 0, n⟩ := by
  unfold decompose
  rw [decomposeGo_seconds _ _ _ (by omega) (by omega) (by omega)]
  have ht : ((n : Int) * 1000).toNat = n * 1000 := by omega
  rw [ht]
  have hz : (n * 1000 + 500) / 1000 = n := by omega
  rw [hz]

/-! ## Helper lemmas: single-unit format strings -/

theorem formatChars_single_via (ms : Int) (hne : ¬ (ms = 0)) (x : List Char)
    (hr : renderFull (unitEntries (decompose ms)) = [x])
    (hnc : x.contains ',' = false) :
    formatTimeChars ms false = x := by
  rw [formatTimeChars_full ms hne, hr]
  show jsCommaAnd x = x
  exact jsCommaAnd_of_not_contains x hnc

theorem no_comma_digits_word (n : Nat) (W : List Char) (hW : ∀ c ∈ W, c ≠ ',') :
    ((natToChars n ++ ' ' :: W).contains ',') = false := by
  apply not_contains_of_forall_ne
  intro c hc
  rw [List.mem_append] at hc
  rcases hc with hc | hc
  · exact isDigitCh_ne c ',' (mem_natToChars_digit n c hc) (by decide)
  · rcases List.mem_cons.mp hc with hc | hc
    · rw [hc]
      decide
    · exact hW c hc

theorem formatTimeChars_minutes (n : Nat) (h2 : 2 ≤ n) (h59 : n ≤ 59) :
    formatTimeChars ((n : Int) * 60000) false = natToChars n ++ ' ' :: ("minutes").data := by
  have hn0 : 0 < n := by omega
  have hn1 : 1 < n := by omega
  apply formatChars_single_via _ (by omega) _ ?_ (no_comma_digits_word n _ (by decide))
  rw [decompose_minutes n h59]
  simp only [unitEntries, renderFull]
  simp [hn0, hn1]

theorem formatTimeChars_hours (n : Nat) (h2 : 2 ≤ n) (h23 : n ≤ 23) :
    formatTimeChars ((n : Int) * 3600000) false = natToChars n ++ ' ' :: ("hours").data := by
  have hn0 : 0 < n := by omega
  have hn1 : 1 < n := by omega
  apply formatChars_single_via _ (by omega) _ ?_ (no_comma_digits_word n _ (by decide))
  rw [decompose_hours n h23]
  simp only [unitEntries, renderFull]
  simp [hn0, hn1]

theorem formatTimeChars_days (n : Nat) (h2 : 2 ≤ n) (h6 : n ≤ 6) :
    formatTimeChars ((n : Int) * 86400000) false = natToChars n ++ ' ' :: ("days").data := by
  have hn0 : 0 < n := by omega
  have hn1 : 1 < n := by omega
  apply formatChars_single_via _ (by omega) _ ?_ (no_comma_digits_word n _ (by decide))
  rw [decompose_days n h6]
  simp only [unitEntries, renderFull]
  simp [hn0, hn1]

theorem formatTimeChars_seconds (n : Nat) (h2 : 2 ≤ n) (h59 : n ≤ 59) :
    formatTimeChars ((n : Int) * 1000) false = natToChars n ++ ' ' :: ("seconds").data := by
  have hn0 : 0 < n := by omega
  have hn1 : 1 < n := by omega
  apply formatChars_single_via _ (by omega) _ ?_ (no_comma_digits_word n _ (by decide))
  rw [decompose_seconds n (by omega) h59]
  simp only [unitEntries, renderFull]
  simp [hn0, hn1]

/-! ## C4: the format/parse round trip -/

/-- Counterexample to C4: 61000ms is an exact sum of whole minutes and
seconds below one week, but its non-minimal format joins the two units with
a comma and "and", which glue onto the parse tokens and defeat every unit
suffix except the final one - the round trip returns 1000, not 61000. -/
theorem c4_counterexample :
    Utils.formatTime 61000 false = "1 minute and  1 second"
    ∧ Utils.parseTime (Utils.formatTime 61000 false) = some 1000
    ∧ (1000 : Nat) ≠ 61000 := by
  refine ⟨rfl, rfl, by decide⟩

/-- C4 amended: the round trip holds for the durations whose non-minimal
format is a single unit - a whole number of seconds, minutes, hours or days
whose greedy decomposition has exactly one nonzero counter; for such
durations parseTime of formatTime returns exactly the input milliseconds.
Multi-unit formats lose every unit but the last to the comma/"and"
separators. -/
theorem c4_single_unit_roundtrip :
    (∀ n : Nat, 1 ≤ n → n ≤ 59 →
      Utils.parseTime (Utils.formatTime ((n : Int) * 1000) false) = some (n * 1000))
    ∧ (∀ n : Nat, 1 ≤ n → n ≤ 59 →
      Utils.parseTime (Utils.formatTime ((n : Int) * 60000) false) = some (n * 60000))
    ∧ (∀ n : Nat, 1 ≤ n → n ≤ 23 →
      Utils.parseTime (Utils.formatTime ((n : Int) * 3600000) false) = some (n * 3600000))
    ∧ (∀ n : Nat, 1 ≤ n → n ≤ 6 →
      Utils.parseTime (Utils.formatTime ((n : Int) * 86400000) false) = some (n * 86400000)) := by
  refine ⟨?_, ?_, ?_, ?_⟩
  · intro n h1 hb
    rcases Nat.lt_or_ge n 2 with hlt | hge
    · have he : n = 1 := by omega
      subst he
      decide
    · show parseTimeChars (formatTimeChars ((n : Int) * 1000) false) = some (n * 1000)
      rw [formatTimeChars_seconds n hge hb,
        parseTime_digits_word (natToChars n) (("seconds").data) (natToChars_ne_nil n)
          (mem_natToChars_digit n) (by decide) (by decide) (by decide) (by decide) (by decide),
        tokenValue_seconds (natToChars n) (mem_natToChars_digit n), natFromDigits_natToChars,
        if_neg (by omega)]
  · intro n h1 hb
    rcases Nat.lt_or_ge n 2 with hlt | hge
    · have he : n = 1 := by omega
      subst he
      decide
    · show parseTimeChars (formatTimeChars ((n : Int) * 60000) false) = some (n * 60000)
      rw [formatTimeChars_minutes n hge hb,
        parseTime_digits_word (natToChars n) (("minutes").data) (natToChars_ne_nil n)
          (mem_natToChars_digit n) (by decide) (by decide) (by decide) (by decide) (by decide),
        tokenValue_minutes (natToChars n) (mem_natToChars_digit n), natFromDigits_natToChars,
        if_neg (by omega)]
  · intro n h1 hb
    rcases Nat.lt_or_ge n 2 with hlt | hge
    · have he : n = 1 := by omega
      subst he
      decide
    · show parseTimeChars (formatTimeChars ((n : Int) * 3600000) false) = some (n * 3600000)
      rw [formatTimeChars_hours n hge hb,
        parseTime_digits_word (natToChars n) (("hours").data) (natToChars_ne_nil n)
          (mem_natToChars_digit n) (by decide) (by decide) (by decide) (by decide) (by decide),
        tokenValue_hours (natToChars n) (mem_natToChars_digit n), natFromDigits_natToChars,
        if_neg (by omega)]
  · intro n h1 hb
    rcases Nat.lt_or_ge n 2 with hlt | hge
    · have he : n = 1 := by omega
      subst he
      decide
    · show parseTimeChars (formatTimeChars ((n : Int) * 86400000) false) = some (n * 86400000)
      rw [formatTimeChars_days n hge hb,
        parseTime_digits_word (natToChars n) (("days").data) (natToChars_ne_nil n)
          (mem_natToChars_digit n) (by decide) (by decide) (by decide) (by decide) (by decide),
        tokenValue_days (natToChars n) (mem_natToChars_digit n), natFromDigits_natToChars,
        if_neg (by omega)]

/-- Witness for C4 at concrete inputs: one round trip through each of the
four single-unit cases. -/
theorem c4_witness :
    Utils.parseTime (Utils.formatTime (((30 : Nat) : Int) * 1000) false) = some (30 * 1000)
    ∧ Utils.parseTime (Utils.formatTime (((45 : Nat) : Int) * 60000) false) = some (45 * 60000)
    ∧ Utils.parseTime (Utils.formatTime (((12 : Nat) : Int) * 3600000) false) = some (12 * 3600000)
    ∧ Utils.parseTime (Utils.formatTime (((3 : Nat) : Int) * 86400000) false) = some (3 * 86400000) := by
  exact ⟨c4_single_unit_roundtrip.1 30 (by omega) (by omega),
    c4_single_unit_roundtrip.2.1 45 (by omega) (by omega),
    c4_single_unit_roundtrip.2.2.1 12 (by omega) (by omega),
    c4_single_unit_roundtrip.2.2.2 3 (by omega) (by omega)⟩

/-! ## C10: decimal values in parseTime -/

theorem jsTokens_single_dot_word (D W : List Char) (hD : D ≠ [])
    (hDd : ∀ c ∈ D, isDigitCh c = true) (hWne : W ≠ [])
    (hWd : ∀ c ∈ W, isDigitCh c = false)
    (hWdot : ∀ c ∈ W, (c == '.') = false) :
    jsTokens (D ++ '.' :: W) = [D ++ '.' :: W] := by
  obtain ⟨d, D', hDc⟩ : ∃ d D', D = d :: D' := by
    rcases D with _ | ⟨d, D'⟩
    · exact absurd rfl hD
    · exact ⟨d, D', rfl⟩
  obtain ⟨w, W', hWc⟩ : ∃ w W', W = w :: W' := by
    rcases W with _ | ⟨w, W'⟩
    · exact absurd rfl hWne
    · exact ⟨w, W', rfl⟩
  have hd : isDigitCh d = true := hDd d (by rw [hDc]; simp)
  have ht1 : (D ++ '.' :: W).takeWhile isDigitCh = D := by
    rw [takeWhile_append_all isDigitCh D _ hDd, List.takeWhile_cons_of_neg (by decide)]
    simp
  have hr1 : (D ++ '.' :: W).dropWhile isDigitCh = '.' :: W := by
    rw [dropWhile_append_all isDigitCh D _ hDd]
    exact List.dropWhile_cons_of_neg (by decide)
  have hdots : ('.' :: W).takeWhile (fun x => x == '.') = ['.'] := by
    rw [List.takeWhile_cons_of_pos (by decide),
      takeWhile_head_neg _ W w W' hWc (hWdot w (by rw [hWc]; simp))]
  have hr2 : ('.' :: W).dropWhile (fun x => x == '.') = W := by
    rw [List.dropWhile_cons_of_pos (by decide)]
    exact dropWhile_head_neg _ W w W' hWc (hWdot w (by rw [hWc]; simp))
  have hd2 : W.takeWhile isDigitCh = [] :=
    takeWhile_head_neg isDigitCh W w W' hWc (hWd w (by rw [hWc]; simp))
  have hr3 : W.dropWhile isDigitCh = W :=
    dropWhile_head_neg isDigitCh W w W' hWc (hWd w (by rw [hWc]; simp))
  have hnd : W.takeWhile (fun x => !(isDigitCh x)) = W :=
    takeWhile_all _ W (fun c hc => by simp [hWd c hc])
  have hr4 : W.dropWhile (fun x => !(isDigitCh x)) = [] :=
    dropWhile_all _ W (fun c hc => by simp [hWd c hc])
  have hcons : D ++ '.' :: W = d :: (D' ++ '.' :: W) := by rw [hDc]; rfl
  show jsTokensAux ((D ++ '.' :: W).length + 1) (D ++ '.' :: W) = [D ++ '.' :: W]
  conv_lhs => rw [hcons]
  simp only [jsTokensAux, hd, Bool.not_true]
  rw [if_neg (by simp)]
  rw [← hcons, ht1, hr1, hdots, hr2, hd2, hr3, hnd, hr4]
  rw [if_pos (by rw [hWc]; simp)]
  rw [jsTokensAux_nil]
  rw [hWc]
  simp

theorem tokenValue_dot_h (D1 : List Char) (hD1d : ∀ c ∈ D1, isDigitCh c = true) :
    tokenValue (D1 ++ '.' :: ("h").data) = 0 := by
  have hmap : (D1 ++ '.' :: ("h").data).map jsToLowerChar = D1 ++ '.' :: ("h").data := by
    rw [List.map_append, map_toLower_digits D1 hD1d]
    rfl
  have htw : (D1 ++ '.' :: ("h").data).takeWhile isDigitCh = D1 := by
    rw [takeWhile_append_all isDigitCh D1 _ hD1d, List.takeWhile_cons_of_neg (by decide)]
    simp
  have hdw : (D1 ++ '.' :: ("h").data).dropWhile isDigitCh = '.' :: ("h").data := by
    rw [dropWhile_append_all isDigitCh D1 _ hD1d]
    exact List.dropWhile_cons_of_neg (by decide)
  have hfnd : (('.' :: ("h").data).takeWhile (fun c => !(isDigitCh c))).length = 2 := by decide
  have e1 : jsEndsWith (D1 ++ '.' :: ("h").data) ("seconds").data = false := by
    apply jsEndsWith_append_long D1 _ _ (by decide)
    decide
  have e2 : jsEndsWith (D1 ++ '.' :: ("h").data) ("second").data = false := by
    apply jsEndsWith_append_long D1 _ _ (by decide)
    decide
  have e3 : jsEndsWith (D1 ++ '.' :: ("h").data) ("s").data = false := by
    rw [jsEndsWith_append_right D1 _ _ (by decide)]
    decide
  have e4 : jsEndsWith (D1 ++ '.' :: ("h").data) ("minutes").data = false := by
    apply jsEndsWith_append_long D1 _ _ (by decide)
    decide
  have e5 : jsEndsWith (D1 ++ '.' :: ("h").data) ("minute").data = false := by
    apply jsEndsWith_append_long D1 _ _ (by decide)
    decide
  have e6 : jsEndsWith (D1 ++ '.' :: ("h").data) ("m").data = false := by
    rw [jsEndsWith_append_right D1 _ _ (by decide)]
    decide
  have e7 : jsEndsWith (D1 ++ '.' :: ("h").data) ("hours").data = false := by
    apply jsEndsWith_append_long D1 _ _ (by decide)
    decide
  have e8 : jsEndsWith (D1 ++ '.' :: ("h").data) ("hour").data = false := by
    apply jsEndsWith_append_long D1 _ _ (by decide)
    decide
  have e9 : jsEndsWith (D1 ++ '.' :: ("h").data) ("h").data = true := by
    rw [jsEndsWith_append_right D1 _ _ (by decide)]
    decide
  have e10 : jsEndsWith (D1 ++ '.' :: ("h").data) ("days").data = false := by
    apply jsEndsWith_append_long D1 _ _ (by decide)
    decide
  have e11 : jsEndsWith (D1 ++ '.' :: ("h").data) ("day").data = false := by
    apply jsEndsWith_append_long D1 _ _ (by decide)
    decide
  have e12 : jsEndsWith (D1 ++ '.' :: ("h").data) ("d").data = false := by
    rw [jsEndsWith_append_right D1 _ _ (by decide)]
    decide
  have e13 : jsEndsWith (D1 ++ '.' :: ("h").data) ("weeks").data = false := by
    apply jsEndsWith_append_long D1 _ _ (by decide)
    decide
  have e14 : jsEndsWith (D1 ++ '.' :: ("h").data) ("week").data = false := by
    apply jsEndsWith_append_long D1 _ _ (by decide)
    decide
  have e15 : jsEndsWith (D1 ++ '.' :: ("h").data) ("w").data = false := by
    rw [jsEndsWith_append_right D1 _ _ (by decide)]
    decide
  have e16 : jsEndsWith (D1 ++ '.' :: ("h").data) ("months").data = false := by
    apply jsEndsWith_append_long D1 _ _ (by decide)
    decide
  have e17 : jsEndsWith (D1 ++ '.' :: ("h").data) ("month").data = false := by
    apply jsEndsWith_append_long D1 _ _ (by decide)
    decide
  have e18 : jsEndsWith (D1 ++ '.' :: ("h").data) ("years").data = false := by
    apply jsEndsWith_append_long D1 _ _ (by decide)
    decide
  have e19 : jsEndsWith (D1 ++ '.' :: ("h").data) ("year").data = false := by
    apply jsEndsWith_append_long D1 _ _ (by decide)
    decide
  have e20 : jsEndsWith (D1 ++ '.' :: ("h").data) ("y").data = false := by
    rw [jsEndsWith_append_right D1 _ _ (by decide)]
    decide
  simp only [tokenValue, hmap, htw, hdw, hfnd, e1, e2, e3, e4, e5, e6, e7, e8, e9, e10,
    e11, e12, e13, e14, e15, e16, e17, e18, e19, e20]
  simp

/-- Counterexample to C10: the token "12.h" has a numeric run containing a
decimal point, yet contributes nothing at all - the empty fractional run
makes the first non-digit run ".h" (length 2), defeating the single-letter
hour guard, so parseTime returns null instead of the 43200000 that "only
the digits before the point contribute" demands, while "12h" parses to
43200000. -/
theorem c10_counterexample :
    Utils.parseTime "12.h" = none
    ∧ Utils.parseTime "12h" = some 43200000
    ∧ (none : Option Nat) ≠ some 43200000 := by
  refine ⟨rfl, rfl, by decide⟩

/-- C10 amended: parseTime truncates a decimal numeric value to the digits
before the point only when at least one fractional digit follows it: for
every token of the shape digits, point, digits, hour letter, the
contribution is the pre-point value times the hour weight, identical to the
same token without its fractional part (parseTime "1.5h" = 3600000 =
parseTime "1h"); when no digit follows the point, the dot merges into the
following non-digit run, the length-one guard of the single-letter unit
fails, and the token contributes nothing (parseTime of digits ++ ".h" is
null). -/
theorem c10_parse_decimal_truncation :
    (∀ D1 D2 : List Char, D1 ≠ [] → (∀ c ∈ D1, isDigitCh c = true) →
      D2 ≠ [] → (∀ c ∈ D2, isDigitCh c = true) →
      Utils.parseTime (String.mk (D1 ++ '.' :: (D2 ++ ("h").data))) =
        Utils.parseTime (String.mk (D1 ++ ("h").data))
      ∧ Utils.parseTime (String.mk (D1 ++ '.' :: (D2 ++ ("h").data))) =
        (if natFromDigits D1 = 0 then none else some (natFromDigits D1 * 3600000)))
    ∧ (∀ D1 : List Char, D1 ≠ [] → (∀ c ∈ D1, isDigitCh c = true) →
      Utils.parseTime (String.mk (D1 ++ '.' :: ("h").data)) = none)
    ∧ Utils.parseTime "1.5h" = some 3600000 ∧ Utils.parseTime "1h" = some 3600000 := by
  refine ⟨?_, ?_, rfl, rfl⟩
  · intro D1 D2 hD1 hD1d hD2 hD2d
    have hgenA : ∀ x : Char, isDigitCh x = false → x ≠ '.' → x ≠ 'h' →
        (D1 ++ '.' :: (D2 ++ ("h").data)).contains x = false := by
      intro x hxd hx1 hx2
      apply not_contains_of_forall_ne
      intro c hc
      rw [List.mem_append] at hc
      rcases hc with hc | hc
      · exact isDigitCh_ne c x (hD1d c hc) hxd
      · rcases List.mem_cons.mp hc with hc | hc
        · rw [hc]
          exact fun he => hx1 he.symm
        · rw [List.mem_append] at hc
          rcases hc with hc | hc
          · exact isDigitCh_ne c x (hD2d c hc) hxd
          · have hch : c = 'h' := by simpa using hc
            rw [hch]
            exact fun he => hx2 he.symm
    have hgenB : ∀ x : Char, isDigitCh x = false → x ≠ 'h' →
        (D1 ++ ("h").data).contains x = false := by
      intro x hxd hx2
      apply not_contains_of_forall_ne
      intro c hc
      rw [List.mem_append] at hc
      rcases hc with hc | hc
      · exact isDigitCh_ne c x (hD1d c hc) hxd
      · have hch : c = 'h' := by simpa using hc
        rw [hch]
        exact fun he => hx2 he.symm
    have hA : parseTimeChars (D1 ++ '.' :: (D2 ++ ("h").data)) =
        (if tokenValue (D1 ++ '.' :: (D2 ++ ("h").data)) = 0 then none
         else some (tokenValue (D1 ++ '.' :: (D2 ++ ("h").data)))) := by
      apply parseTimeChars_single_token
      · exact hgenA ':' (by decide) (by decide) (by decide)
      · exact hgenA ' ' (by decide) (by decide) (by decide)
      · have hall : (D1 ++ '.' :: (D2 ++ ("h").data)).all isDigitCh = false := by
          rw [List.all_eq_false]
          exact ⟨'.', by simp, by decide⟩
        rw [hall]
        simp
      · exact jsTokens_single_decimal D1 D2 ("h").data hD1 hD1d hD2 hD2d
          (by decide) (by decide) (by decide)
    have hB : parseTimeChars (D1 ++ ("h").data) =
        (if tokenValue (D1 ++ ("h").data) = 0 then none
         else some (tokenValue (D1 ++ ("h").data))) := by
      apply parseTimeChars_single_token
      · exact hgenB ':' (by decide) (by decide)
      · exact hgenB ' ' (by decide) (by decide)
      · have hall : (D1 ++ ("h").data).all isDigitCh = false := by
          rw [List.all_eq_false]
          exact ⟨'h', by simp, by decide⟩
        rw [hall]
        simp
      · exact jsTokens_single_word D1 ("h").data hD1 hD1d (by decide) (by decide) (by decide)
    rw [tokenValue_h_decimal D1 D2 hD1d hD2 hD2d] at hA
    rw [tokenValue_h D1 hD1d] at hB
    constructor
    · show parseTimeChars (D1 ++ '.' :: (D2 ++ ("h").data)) = parseTimeChars (D1 ++ ("h").data)
      rw [hA, hB]
    · show parseTimeChars (D1 ++ '.' :: (D2 ++ ("h").data)) = _
      rw [hA]
      by_cases hz : natFromDigits D1 = 0
      · rw [if_pos (by omega), if_pos hz]
      · rw [if_neg (by omega), if_neg hz]
  · intro D1 hD1 hD1d
    have hgenC : ∀ x : Char, isDigitCh x = false → x ≠ '.' → x ≠ 'h' →
        (D1 ++ '.' :: ("h").data).contains x = false := by
      intro x hxd hx1 hx2
      apply not_contains_of_forall_ne
      intro c hc
      rw [List.mem_append] at hc
      rcases hc with hc | hc
      · exact isDigitCh_ne c x (hD1d c hc) hxd
      · rcases List.mem_cons.mp hc with hc | hc
        · rw [hc]
          exact fun he => hx1 he.symm
        · have hch : c = 'h' := by simpa using hc
          rw [hch]
          exact fun he => hx2 he.symm
    have hC : parseTimeChars (D1 ++ '.' :: ("h").data) =
        (if tokenValue (D1 ++ '.' :: ("h").data) = 0 then none
         else some (tokenValue (D1 ++ '.' :: ("h").data))) := by
      apply parseTimeChars_single_token
      · exact hgenC ':' (by decide) (by decide) (by decide)
      · exact hgenC ' ' (by decide) (by decide) (by decide)
      · have hall : (D1 ++ '.' :: ("h").data).all isDigitCh = false := by
          rw [List.all_eq_false]
          exact ⟨'.', by simp, by decide⟩
        rw [hall]
        simp
      · exact jsTokens_single_dot_word D1 ("h").data hD1 hD1d
          (by decide) (by decide) (by decide)
    show parseTimeChars (D1 ++ '.' :: ("h").data) = none
    rw [hC, tokenValue_dot_h D1 hD1d]
    simp

/-- Witness for C10 at concrete digit runs: the fractional token 1.5h equals
the whole token 1h and contributes exactly one hour, while the empty
fractional run of 12.h contributes nothing. -/
theorem c10_witness :
    Utils.parseTime (String.mk (['1'] ++ '.' :: (['5'] ++ ("h").data))) =
      Utils.parseTime (String.mk (['1'] ++ ("h").data))
    ∧ Utils.parseTime (String.mk (['1'] ++ '.' :: (['5'] ++ ("h").data))) =
      (if natFromDigits ['1'] = 0 then none else some (natFromDigits ['1'] * 3600000))
    ∧ Utils.parseTime (String.mk (['1', '2'] ++ '.' :: ("h").data)) = none := by
  refine ⟨?_, ?_, ?_⟩
  · exact (c10_parse_decimal_truncation.1 ['1'] ['5']
      (by decide) (by decide) (by decide) (by decide)).1
  · exact (c10_parse_decimal_truncation.1 ['1'] ['5']
      (by decide) (by decide) (by decide) (by decide)).2
  · exact c10_parse_decimal_truncation.2.1 ['1', '2'] (by decide) (by decide)
